import Mathlib

/-!
Verification of the census proteomics library (Rust) against its
natural-language specification.

The Rust sources are shallowly embedded:
* strings are `List Char` (the embedding works on the character lists of the
  input, so every operation is a plain structural recursion);
* machine integers are `Nat`; the `as u16` casts in the filter engine are
  modelled as `% 65536`; `u16`/`u32` parsing enforces the numeric bounds;
* operations that can panic in Rust (unsigned underflow of `chan - 1`,
  overflowing `u32` sums, failed `assert!`) return `none` in an `Option`
  layer; a defined result is `some _`;
* `f32`/`f64` values are modelled as exact rationals: the only float
  computation, the coefficient-of-variation cutoff, is embedded as the
  decidable comparison it feeds into (rounding of IEEE floats is not
  modelled; no claim in scope depends on float rounding).
-/

deriving instance DecidableEq for Except

namespace Census

/-- Is `pat` a prefix of `s`? (Rust `str::starts_with` for string patterns.) -/
def startsWithList : List Char → List Char → Bool
  | [], _ => true
  | _ :: _, [] => false
  | p :: ps, c :: cs => p == c && startsWithList ps cs

/-- Does `s` contain `pat` as a substring? (Rust `str::contains`.) -/
def containsSub (pat : List Char) : List Char → Bool
  | [] => startsWithList pat []
  | c :: cs => startsWithList pat (c :: cs) || containsSub pat cs

/-- Helper for `countOcc`: when `skip` is positive the position is inside a
previous match and is not counted (Rust `str::matches` is non-overlapping). -/
def countOccAux (pat : List Char) : List Char → Nat → Nat
  | [], _ => 0
  | _ :: cs, skip + 1 => countOccAux pat cs skip
  | c :: cs, 0 =>
    if startsWithList pat (c :: cs) then 1 + countOccAux pat cs (pat.length - 1)
    else countOccAux pat cs 0

/-- Number of non-overlapping occurrences of `pat` (Rust `line.matches(pat).count()`). -/
def countOcc (pat s : List Char) : Nat := countOccAux pat s 0

/-- Split a character list at tab characters; like Rust `str::split('\t')`
this always yields one more field than there are separators. -/
def splitTab : List Char → List (List Char)
  | [] => [[]]
  | '\t' :: rest =>
    [] :: splitTab rest
  | c :: rest =>
    match splitTab rest with
    | [] => [[c]]
    | l :: ls => (c :: l) :: ls

/-- Split at '.' characters (Rust `str::split('.')`), used by the tryptic test. -/
def splitDot : List Char → List (List Char)
  | [] => [[]]
  | '.' :: rest =>
    [] :: splitDot rest
  | c :: rest =>
    match splitDot rest with
    | [] => [[c]]
    | l :: ls => (c :: l) :: ls

/-- Rust `str::lines`: split at `\n` or `\r\n`; a final line terminator does
not produce a trailing empty line. -/
def rustLines : List Char → List (List Char)
  | [] => []
  | '\r' :: '\n' :: rest => [] :: rustLines rest
  | '\n' :: rest => [] :: rustLines rest
  | c :: rest =>
    match rustLines rest with
    | [] => [[c]]
    | l :: ls => (c :: l) :: ls

/-- Rust `str::starts_with(char)`: the first character is `c`. -/
def startsWithChar (l : List Char) (c : Char) : Bool := l.head? == some c

/-- Accumulate decimal digits; fails at the first non-digit character. -/
def digitsToNatAux : List Char → Nat → Option Nat
  | [], acc => some acc
  | c :: cs, acc =>
    if c.isDigit then digitsToNatAux cs (acc * 10 + (c.toNat - 48)) else none

/-- Rust unsigned-integer parsing (`str::parse::<uN>`): an optional leading
`+`, then at least one ASCII digit, and the value must fit below `bound`. -/
def parseUInt (bound : Nat) (s : List Char) : Option Nat :=
  let s := match s with
    | '+' :: rest => rest
    | _ => s
  match s with
  | [] => none
  | _ =>
    match digitsToNatAux s 0 with
    | none => none
    | some n => if n ≤ bound then some n else none

/-- Value of a digit list, empty meaning zero (helper for float parsing). -/
def digitsVal (s : List Char) : Nat := (digitsToNatAux s 0).getD 0

/-- Build the canonical rational `n / d`.  The library's rational arithmetic
is written through this explicitly normalizing constructor (plain `Rat.mk'`
with a `gcd` reduction) rather than the `irreducible` field operations of
`ℚ`, so that every definition in this file evaluates by kernel reduction on
concrete inputs. -/
def qmk (n : Int) (d : Nat) (hd : d ≠ 0) : ℚ :=
  let g := n.natAbs.gcd d
  have hdpos : 0 < d := Nat.pos_of_ne_zero hd
  have hg : 0 < g := Nat.gcd_pos_of_pos_right _ hdpos
  Rat.mk' (n.tdiv g) (d / g)
    (Nat.ne_of_gt (Nat.div_pos (Nat.le_of_dvd hdpos (Nat.gcd_dvd_right _ _)) hg))
    (by
      have habs : (n.tdiv g).natAbs = n.natAbs / g := by
        rw [Int.natAbs_tdiv]
        rfl
      rw [habs]
      exact Nat.coprime_div_gcd_div_gcd hg)

/-- Exact rational addition through the normalizing constructor. -/
def qadd (a b : ℚ) : ℚ :=
  qmk (a.num * b.den + b.num * a.den) (a.den * b.den) (Nat.mul_ne_zero a.den_nz b.den_nz)

/-- Exact rational subtraction through the normalizing constructor. -/
def qsub (a b : ℚ) : ℚ :=
  qmk (a.num * b.den - b.num * a.den) (a.den * b.den) (Nat.mul_ne_zero a.den_nz b.den_nz)

/-- Exact rational multiplication through the normalizing constructor. -/
def qmul (a b : ℚ) : ℚ :=
  qmk (a.num * b.num) (a.den * b.den) (Nat.mul_ne_zero a.den_nz b.den_nz)

/-- Exact division of a rational by a nonzero natural number. -/
def qdivNat (a : ℚ) (n : Nat) (h : n ≠ 0) : ℚ :=
  qmk a.num (a.den * n) (Nat.mul_ne_zero a.den_nz h)

/-- The rational value of a natural number. -/
def qofNat (n : Nat) : ℚ := qmk n 1 one_ne_zero

/-- Modelled from Rust's standard library float parsing
(`str::parse::<f32>` / `::<f64>`), restricted to plain decimal literals
(optional sign, integer digits, optional fractional part, at least one digit
overall); the value is represented exactly as a rational.  The exotic float
forms (exponents, `inf`, `nan`) and IEEE rounding are not modelled; no claim
in scope exercises them. -/
def parseFloat (s : List Char) : Option ℚ :=
  let signed : Int × List Char :=
    match s with
    | '+' :: rest => (1, rest)
    | '-' :: rest => (-1, rest)
    | _ => (1, s)
  let sign := signed.1
  let s := signed.2
  let intPart := s.takeWhile Char.isDigit
  let rest := s.dropWhile Char.isDigit
  match rest with
  | [] => if intPart.isEmpty then none else some (qmk (sign * digitsVal intPart) 1 one_ne_zero)
  | '.' :: frac =>
    if frac.all Char.isDigit && !(intPart.isEmpty && frac.isEmpty) then
      some (qmk (sign * (digitsVal intPart * 10 ^ frac.length + digitsVal frac))
        (10 ^ frac.length) (Nat.ne_of_gt (Nat.pos_pow_of_pos _ (by decide))))
    else none
  | _ => none

/-- Rust `str::trim_end_matches('%')`: drop every trailing percent sign. -/
def dropTrailingPercent (s : List Char) : List Char :=
  (s.reverse.dropWhile (fun c => c == '%')).reverse

/-- Peptide-level quantification data (`protein.rs`, `struct Peptide`):
sequence text, one raw intensity value per channel, uniqueness flag. -/
structure Peptide where
  sequence : List Char
  values : List Nat
  unique : Bool
deriving DecidableEq, Repr

/-- Protein-level quantification data (`protein.rs`, `struct Protein`).
`sequence_coverage` (an `f32` in the source) is an exact rational here. -/
structure Protein where
  accession : List Char
  description : List Char
  spectral_count : Nat
  sequence_count : Nat
  sequence_coverage : ℚ
  molecular_weight : Nat
  peptides : List Peptide
  channels : Nat
deriving DecidableEq, Repr

/-- A parsed census file (`dataset.rs`, `struct Dataset`). -/
structure Dataset where
  proteins : List Protein
  channels : Nat
deriving DecidableEq, Repr

/-- Tryptic-ends test (`protein.rs`, `Peptide::tryptic`). -/
def Peptide.tryptic (p : Peptide) : Bool :=
  let cterm := p.sequence.getLast? == some '-'
  let front :=
    match p.sequence.head? with
    | some c => c == 'K' || c == 'R' || c == '-'
    | none => false
  let endOk :=
    match (splitDot p.sequence).get? 1 with
    | some s =>
      match s.getLast? with
      | some c => if c == 'K' || c == 'R' then true else cterm
      | none => false
    | none => false
  front && endOk

/-- Protein-level filter (`filter.rs`, `enum ProteinFilter`). -/
inductive ProteinFilter where
  | SpectralCounts (n : Nat)
  | SequenceCounts (n : Nat)
  | ExcludeReverse
deriving DecidableEq, Repr

/-- Peptide-level filter (`filter.rs`, `enum PeptideFilter`).  The `f64`
coefficient-of-variation cutoff is an exact rational. -/
inductive PeptideFilter where
  | SequenceMatch (pat : List Char)
  | SequenceExclude (pat : List Char)
  | TotalIntensity (n : Nat)
  | TotalIntensityChannels (chans : List Nat) (n : Nat)
  | ChannelCV (chans : List Nat) (cutoff : ℚ)
  | ChannelIntensity (chan : Nat) (cutoff : Nat)
  | Tryptic
  | Unique
deriving DecidableEq, Repr

/-- Composable filter (`filter.rs`, `struct Filter`). -/
structure Filter where
  peptide_filters : List PeptideFilter
  protein_filters : List ProteinFilter
deriving DecidableEq, Repr

/-- The empty filter (`Filter::default`). -/
def Filter.default : Filter := { peptide_filters := [], protein_filters := [] }

/-- Builder push of a protein rule (`Filter::add_protein_filter`). -/
def Filter.add_protein_filter (F : Filter) (f : ProteinFilter) : Filter :=
  { F with protein_filters := F.protein_filters ++ [f] }

/-- Builder push of a peptide rule (`Filter::add_peptide_filter`). -/
def Filter.add_peptide_filter (F : Filter) (f : PeptideFilter) : Filter :=
  { F with peptide_filters := F.peptide_filters ++ [f] }

/-- Debug-mode checked `u32` addition: `none` models the overflow panic. -/
def checkedAddU32 (a b : Nat) : Option Nat :=
  if a + b ≤ 4294967295 then some (a + b) else none

/-- Running checked `u32` sum (`peptide.values.iter().sum::<u32>()`). -/
def sumU32Aux : List Nat → Nat → Option Nat
  | [], acc => some acc
  | v :: vs, acc =>
    match checkedAddU32 acc v with
    | none => none
    | some a => sumU32Aux vs a

/-- The decidable comparison `util::cv(&v) >= cutoff` of `util.rs`, embedded
over exact reals: `cv` is population standard deviation over mean.  An empty
sample or a zero mean makes the Rust float computation NaN, and a NaN
comparison is false, so those cases return `false`; otherwise both sides of
the comparison are nonnegative once the cutoff is positive and squaring gives
an equivalent rational inequality. -/
def cvGe (v : List Nat) (cutoff : ℚ) : Bool :=
  if h : v.length = 0 then false
  else
    let m : ℚ := qmk (v.sum : Nat) v.length h
    if m.num = 0 then false
    else if cutoff ≤ 0 then true
    else
      let cm := qmul cutoff m
      let vr : ℚ :=
        qdivNat ((v.map fun x => (let d := qsub (qofNat x) m; qmul d d)).foldl qadd (qofNat 0))
          v.length h
      decide (qmul cm cm ≤ vr)

/-- Values of the (1-based) channels of `chans` that are in range, in order
(`filter.rs`, the `ChannelCV` arm).  Every element evaluates `chan - 1`, so a
zero channel index is the unsigned-underflow panic, modelled as `none`. -/
def gatherChannels (values : List Nat) : List Nat → Option (List Nat)
  | [] => some []
  | 0 :: _ => none
  | (ch + 1) :: cs =>
    match gatherChannels values cs with
    | none => none
    | some rest =>
      if ch < values.length then some (values.getD ch 0 :: rest) else some rest

/-- Checked sum over the in-range channels of `chans` (`filter.rs`, the
`TotalIntensityChannels` arm): `chan - 1` underflow and `u32` overflow both
panic (`none`). -/
def sumChannels (values : List Nat) : List Nat → Nat → Option Nat
  | [], acc => some acc
  | 0 :: _, _ => none
  | (ch + 1) :: cs, acc =>
    if ch < values.length then
      match checkedAddU32 acc (values.getD ch 0) with
      | none => none
      | some a => sumChannels values cs a
    else sumChannels values cs acc

/-- One arm of the peptide-filter dispatch in `Filter::filter_protein`
(`filter.rs` lines 144-200): `some b` says the peptide passes (`b = true`) or
fails this rule; `none` is a panic. -/
def evalPeptideFilter (f : PeptideFilter) (p : Peptide) : Option Bool :=
  match f with
  | .SequenceMatch pat => some (containsSub pat p.sequence)
  | .SequenceExclude pat => some (!containsSub pat p.sequence)
  | .TotalIntensity n => (sumU32Aux p.values 0).map fun s => decide (n ≤ s)
  | .TotalIntensityChannels chans n =>
    (sumChannels p.values chans 0).map fun s => decide (n ≤ s)
  | .ChannelCV chans cutoff =>
    (gatherChannels p.values chans).map fun v => !cvGe v cutoff
  | .ChannelIntensity chan cutoff =>
    match chan with
    | 0 => none
    | ch + 1 => some (!(decide (ch < p.values.length) && decide (p.values.getD ch 0 < cutoff)))
  | .Tryptic => some p.tryptic
  | .Unique => some p.unique

/-- The inner `for filter in &self.peptide_filters` loop: every rule is
evaluated (the Rust loop does not short-circuit on a failure), and the
peptide passes only if all rules do. -/
def peptidePasses (fs : List PeptideFilter) (p : Peptide) : Option Bool :=
  match fs with
  | [] => some true
  | f :: rest =>
    match evalPeptideFilter f p with
    | none => none
    | some b => (peptidePasses rest p).map fun c => b && c

/-- The `for peptide in protein.peptides` loop of `Filter::filter_protein`:
collect, in order, the peptides passing every peptide rule. -/
def collectPassing (fs : List PeptideFilter) : List Peptide → Option (List Peptide)
  | [] => some []
  | p :: rest =>
    match peptidePasses fs p with
    | none => none
    | some true => (collectPassing fs rest).map fun l => p :: l
    | some false => collectPassing fs rest

/-- First pass over the protein filters (`filter.rs` lines 117-135),
evaluated against the stored (pre-filter) counts. -/
def prePass (fs : List ProteinFilter) (p : Protein) : Bool :=
  fs.all fun f =>
    match f with
    | .SpectralCounts n => decide (n ≤ p.spectral_count)
    | .SequenceCounts n => decide (n ≤ p.sequence_count)
    | .ExcludeReverse => !containsSub "Reverse".data p.accession

/-- Second pass over the protein filters (`filter.rs` lines 227-241),
evaluated against the recomputed counts; `ExcludeReverse` is the `_ => {}`
arm and always passes here. -/
def postPass (fs : List ProteinFilter) (spec seq : Nat) : Bool :=
  fs.all fun f =>
    match f with
    | .SpectralCounts n => decide (n ≤ spec)
    | .SequenceCounts n => decide (n ≤ seq)
    | .ExcludeReverse => true

/-- Number of distinct sequences (the `HashSet` collect in `filter_protein`). -/
def distinctCount (l : List (List Char)) : Nat := l.dedup.length

/-- `Filter::filter_protein` (`filter.rs` lines 115-244).  The outer `Option`
is the panic layer; `some none` is a rejected protein.  The surviving peptide
count and distinct-sequence count are truncated by the `as u16` casts,
modelled as `% 65536`. -/
def Filter.filter_protein (F : Filter) (p : Protein) : Option (Option Protein) :=
  if prePass F.protein_filters p then
    match collectPassing F.peptide_filters p.peptides with
    | none => none
    | some filtered =>
      if filtered.isEmpty then some none
      else
        let spec := filtered.length % 65536
        let seq := distinctCount (filtered.map Peptide.sequence) % 65536
        if postPass F.protein_filters spec seq then
          some (some { p with peptides := filtered, spectral_count := spec, sequence_count := seq })
        else some none
  else some none

/-- The `filter_map` over proteins inside `Filter::filter_dataset`. -/
def filterMapProteins (F : Filter) : List Protein → Option (List Protein)
  | [] => some []
  | p :: ps =>
    match F.filter_protein p with
    | none => none
    | some none => filterMapProteins F ps
    | some (some q) => (filterMapProteins F ps).map fun l => q :: l

/-- `Filter::filter_dataset` (`filter.rs` lines 98-107): channel count is
carried through; proteins are filter-mapped. -/
def Filter.filter_dataset (F : Filter) (d : Dataset) : Option Dataset :=
  (filterMapProteins F d.proteins).map fun ps => { proteins := ps, channels := d.channels }

/-- Parse-error kinds (`parser.rs`, `enum ErrorKind`). -/
inductive ErrorKind where
  | Invalid (c : Char)
  | Conversion
  | EOF
deriving DecidableEq, Repr

/-- A located parse error (`parser.rs`, `struct Error`). -/
structure Error where
  kind : ErrorKind
  line : Nat
deriving DecidableEq, Repr

/-- The channel-count update a single header line performs: a line
containing `"m/z"` overwrites the count with its number of `"m/z_"`
occurrences divided by two, truncated by the `as u8` cast into the
`channels: u8` field (`parser.rs` line 167), i.e. taken mod 2^8; any other
line leaves it unchanged. -/
def headerUpd (ch : Nat) (l : List Char) : Nat :=
  if containsSub "m/z".data l then countOcc "m/z_".data l / 2 % 256 else ch

/-- `Parser::parse_headers`: consume the maximal run of lines starting with
`H`; each consumed line applies `headerUpd` to the channel count, and each
consumed line advances the parser's line counter (`Parser::next` is only
called here, so only header lines ever advance it).  Returns the remaining
lines and the updated channel count and line counter; an empty remainder
corresponds to the Rust function returning `None`. -/
def parse_headers : List (List Char) → Nat → Nat → List (List Char) × Nat × Nat
  | [], ch, ln => ([], ch, ln)
  | l :: rest, ch, ln =>
    if startsWithChar l 'H' then
      parse_headers rest (headerUpd ch l) (ln + 1)
    else (l :: rest, ch, ln)

/-- The per-channel loop of `Parser::parse_peptide`: read `k` pairs of
fields, keeping the raw intensity (a `u32`) and discarding the normalized
value.  A missing field is `EOF`, a failed numeric conversion is
`Conversion`, both at the parser's current line counter. -/
def readChannels : Nat → Nat → List (List Char) → Except Error (List Nat)
  | 0, _, _ => .ok []
  | k + 1, ln, fields =>
    match fields with
    | [] => .error ⟨.EOF, ln⟩
    | mz :: fs =>
      match parseUInt 4294967295 mz with
      | none => .error ⟨.Conversion, ln⟩
      | some v =>
        match fs with
        | [] => .error ⟨.EOF, ln⟩
        | _ :: fs2 => (readChannels k ln fs2).map fun vs => v :: vs

/-- `Parser::parse_peptide` applied to one line (the line its caller peeked).
The two `assert!`s of the Rust code — the first tab field must be exactly
`S`, and the unique flag must be at most one character — are panics, modelled
as `none`. -/
def parse_peptide (channels ln : Nat) (l : List Char) : Option (Except Error Peptide) :=
  match splitTab l with
  | [] => none
  | f0 :: fields =>
    if f0 = ['S'] then
      match fields with
      | [] => some (.error ⟨.EOF, ln⟩)
      | n :: fields2 =>
        if n.length ≤ 1 then
          match fields2 with
          | [] => some (.error ⟨.EOF, ln⟩)
          | seq :: fields3 =>
            match readChannels channels ln fields3 with
            | .error e => some (.error e)
            | .ok vs => some (.ok ⟨seq, vs, n = ['U']⟩)
        else none
    else none

/-- The `while let Some(next) = self.iter.peek()` loop at the end of
`Parser::parse_protein`: consume following lines into peptides while they
start with `S`. -/
def parse_peptides (channels ln : Nat) :
    List (List Char) → Option (Except Error (List Peptide × List (List Char)))
  | [] => some (.ok ([], []))
  | l :: rest =>
    if startsWithChar l 'S' then
      match parse_peptide channels ln l with
      | none => none
      | some (.error e) => some (.error e)
      | some (.ok pep) =>
        match parse_peptides channels ln rest with
        | none => none
        | some (.error e) => some (.error e)
        | some (.ok (peps, rem)) => some (.ok (pep :: peps, rem))
    else some (.ok ([], l :: rest))

/-- `Parser::parse_protein`: the fixed field sequence of a `P` record —
accession, spectral count (`u16`), sequence count (`u16`), coverage (`%`
signs stripped from the end, parsed as a float), molecular weight (`u32`),
then the LAST remaining field as the description — followed by the peptide
block.  The `assert_eq!` on the leading field is a panic (`none`).  Note the
Rust code reads lines with `self.iter.next()` directly, never advancing the
line counter `self.line`. -/
def parse_protein (channels ln : Nat) :
    List (List Char) → Option (Except Error (Protein × List (List Char)))
  | [] => some (.error ⟨.EOF, ln⟩)
  | l :: rest =>
    match splitTab l with
    | [] => none
    | f0 :: fields =>
      if f0 = ['P'] then
        match fields with
        | [] => some (.error ⟨.EOF, ln⟩)
        | accession :: f2 =>
          match f2 with
          | [] => some (.error ⟨.EOF, ln⟩)
          | scs :: f3 =>
            match parseUInt 65535 scs with
            | none => some (.error ⟨.Conversion, ln⟩)
            | some spectral =>
              match f3 with
              | [] => some (.error ⟨.EOF, ln⟩)
              | sqs :: f4 =>
                match parseUInt 65535 sqs with
                | none => some (.error ⟨.Conversion, ln⟩)
                | some seqc =>
                  match f4 with
                  | [] => some (.error ⟨.EOF, ln⟩)
                  | covs :: f5 =>
                    match parseFloat (dropTrailingPercent covs) with
                    | none => some (.error ⟨.Conversion, ln⟩)
                    | some coverage =>
                      match f5 with
                      | [] => some (.error ⟨.EOF, ln⟩)
                      | mws :: f6 =>
                        match parseUInt 4294967295 mws with
                        | none => some (.error ⟨.Conversion, ln⟩)
                        | some mw =>
                          match f6.getLast? with
                          | none => some (.error ⟨.EOF, ln⟩)
                          | some desc =>
                            match parse_peptides channels ln rest with
                            | none => none
                            | some (.error e) => some (.error e)
                            | some (.ok (peps, rem)) =>
                              some (.ok
                                (⟨accession, desc, spectral, seqc, coverage, mw, peps, channels⟩,
                                  rem))
      else none

/-- The `while let Some(line) = self.peek()` loop of `Parser::parse`.  The
fuel argument only bounds the number of iterations; since every iteration
consumes at least one line, `parse` below supplies enough fuel that the
zero case is unreachable.  An empty line is the `chars().next()` `EOF`
error; a leading character other than `H`/`P` is `Invalid` at the parser's
current line counter. -/
def parseLoop : Nat → List (List Char) → Nat → Nat → Option (Except Error (List Protein × Nat))
  | 0, _, _, _ => none
  | _ + 1, [], ch, _ => some (.ok ([], ch))
  | fuel + 1, l :: rest, ch, ln =>
    match l.head? with
    | none => some (.error ⟨.EOF, ln⟩)
    | some init =>
      if init = 'H' then
        match parse_headers (l :: rest) ch ln with
        | (rem, ch2, ln2) =>
          match rem with
          | [] => some (.error ⟨.EOF, ln2⟩)
          | _ :: _ => parseLoop fuel rem ch2 ln2
      else if init = 'P' then
        match parse_protein ch ln (l :: rest) with
        | none => none
        | some (.error e) => some (.error e)
        | some (.ok (prot, rem)) =>
          match parseLoop fuel rem ch ln with
          | none => none
          | some (.error e) => some (.error e)
          | some (.ok (ps, chf)) => some (.ok (prot :: ps, chf))
      else some (.error ⟨.Invalid init, ln⟩)

/-- `Parser::parse` on a whole input string (`Parser::new` starts with zero
channels and line counter 1; `read_census` in `lib.rs` is exactly this). -/
def parse (input : String) : Option (Except Error Dataset) :=
  let ls := rustLines input.data
  match parseLoop (ls.length + 1) ls 0 1 with
  | none => none
  | some (.error e) => some (.error e)
  | some (.ok (ps, ch)) => some (.ok ⟨ps, ch⟩)

end Census

/-!
The textual rule language lives in the `filter/` module variant of the
sources (`filter/mod.rs` with its sub-module `filter/parse.rs`); its filter
enums differ slightly from `filter.rs` (float cutoffs, no
`TotalIntensityChannels`, no `ExcludeReverse`), so they are embedded
separately here.
-/

namespace Census.Rules

/-- Protein-level filter of `filter/mod.rs`. -/
inductive ProteinFilter where
  | SpectralCounts (n : Nat)
  | SequenceCounts (n : Nat)
deriving DecidableEq, Repr

/-- Peptide-level filter of `filter/mod.rs`; `f64` cutoffs are exact
rationals. -/
inductive PeptideFilter where
  | SequenceMatch (pat : List Char)
  | SequenceExclude (pat : List Char)
  | TotalIntensity (n : ℚ)
  | ChannelCV (chans : List Nat) (cutoff : ℚ)
  | ChannelIntensity (chan : Nat) (cutoff : ℚ)
  | Tryptic
  | Unique
deriving DecidableEq, Repr

/-- The filter aggregate of `filter/mod.rs`; equality (Rust's derived
`PartialEq`) compares the two predicate vectors elementwise, in order. -/
structure Filter where
  peptide_filters : List PeptideFilter
  protein_filters : List ProteinFilter
deriving DecidableEq, Repr

/-- `Filter::default` of `filter/mod.rs`. -/
def Filter.default : Filter := { peptide_filters := [], protein_filters := [] }

/-- `Filter::add_protein_filter` of `filter/mod.rs`. -/
def Filter.add_protein_filter (F : Filter) (f : ProteinFilter) : Filter :=
  { F with protein_filters := F.protein_filters ++ [f] }

/-- `Filter::add_peptide_filter` of `filter/mod.rs`. -/
def Filter.add_peptide_filter (F : Filter) (f : PeptideFilter) : Filter :=
  { F with peptide_filters := F.peptide_filters ++ [f] }

/-- Rule-text parse errors (`filter/parse.rs`, `enum ErrorKind`). -/
inductive ErrorKind where
  | Command (s : List Char)
  | Expected (s : List Char)
  | Conversion
deriving DecidableEq, Repr

/-- `take_while` of `filter/parse.rs`: split into the longest prefix whose
characters satisfy the predicate, and the rest. -/
def take_while (p : Char → Bool) (s : List Char) : List Char × List Char :=
  (s.takeWhile p, s.dropWhile p)

/-- `take_whitespace`: drop leading whitespace (Rust `char::is_whitespace`;
the inputs in scope are ASCII, where Lean's `Char.isWhitespace` agrees). -/
def take_whitespace (s : List Char) : List Char :=
  s.dropWhile Char.isWhitespace

/-- `take_word`: the longest non-whitespace prefix and the rest. -/
def take_word (s : List Char) : List Char × List Char :=
  take_while (fun c => !c.isWhitespace) s

/-- Fuel-bounded repeated prefix stripping; Rust `str::trim_start_matches`
removes every leading occurrence of the pattern. -/
def trimMatchesAux : Nat → List Char → List Char → List Char
  | 0, _, s => s
  | fuel + 1, m, s =>
    if startsWithList m s && !m.isEmpty then trimMatchesAux fuel m (s.drop m.length) else s

/-- Rust `str::trim_start_matches` for a string pattern. -/
def trimStartMatches (m s : List Char) : List Char := trimMatchesAux s.length m s

/-- `expect` of `filter/parse.rs`: require the literal `m` as a prefix and
strip every leading repetition of it. -/
def expect (s m : List Char) : Option (List Char) :=
  if startsWithList m s then some (trimStartMatches m s) else none

/-- `parse_protein_filter` of `filter/parse.rs`. -/
def parse_protein_filter (input : List Char) : Except ErrorKind (ProteinFilter × List Char) :=
  let tw := take_word (take_whitespace input)
  let cmd := tw.1
  let input := tw.2
  if cmd = "spectral_counts".data then
    match expect (take_whitespace input) ['='] with
    | none => .error (.Expected ['='])
    | some e1 =>
      let nw := take_word (take_whitespace e1)
      match parseUInt 65535 nw.1 with
      | none => .error .Conversion
      | some n => .ok (.SpectralCounts n, nw.2)
  else if cmd = "sequence_counts".data then
    match expect (take_whitespace input) ['='] with
    | none => .error (.Expected ['='])
    | some e1 =>
      let nw := take_word (take_whitespace e1)
      match parseUInt 65535 nw.1 with
      | none => .error .Conversion
      | some n => .ok (.SequenceCounts n, nw.2)
  else .error (.Command cmd)

/-- The `usize::MAX` bound used when parsing channel indices. -/
def usizeMax : Nat := 18446744073709551615

/-- The comma-separated-channel loop inside the `channel_cv` arm of
`parse_peptide_filter`: read digit runs while a comma follows, stripping
every comma; the loop leaves the last channel for its caller.  Each
continuing iteration strictly shrinks the input (a comma is removed), so the
supplied fuel of one more than the input length makes the zero case
unreachable. -/
def cvLoop : Nat → List Nat → List Char → Except ErrorKind (List Nat × List Char)
  | 0, chans, input => .ok (chans, input)
  | fuel + 1, chans, input =>
    let tw := take_while Char.isDigit (take_whitespace input)
    let chan := tw.1
    let rest := take_whitespace tw.2
    if !startsWithList [','] (take_whitespace rest) then .ok (chans, input)
    else
      match parseUInt usizeMax chan with
      | none => .error .Conversion
      | some c => cvLoop fuel (chans ++ [c]) (trimStartMatches [','] rest)

/-- `parse_peptide_filter` of `filter/parse.rs`. -/
def parse_peptide_filter (input : List Char) : Except ErrorKind (PeptideFilter × List Char) :=
  let tw := take_word (take_whitespace input)
  let cmd := tw.1
  let input := tw.2
  if cmd = "total_intensity".data then
    match expect (take_whitespace input) ['='] with
    | none => .error (.Expected ['='])
    | some e1 =>
      let nw := take_word (take_whitespace e1)
      match parseFloat nw.1 with
      | none => .error .Conversion
      | some n => .ok (.TotalIntensity n, nw.2)
  else if cmd = "channel_intensity".data then
    match expect (take_whitespace input) ['='] with
    | none => .error (.Expected ['='])
    | some e1 =>
      let cw := take_word (take_whitespace e1)
      let vw := take_word (take_whitespace cw.2)
      match parseUInt usizeMax cw.1 with
      | none => .error .Conversion
      | some chan =>
        match parseFloat vw.1 with
        | none => .error .Conversion
        | some cutoff => .ok (.ChannelIntensity chan cutoff, vw.2)
  else if cmd = "channel_cv".data then
    match expect (take_whitespace input) ['='] with
    | none => .error (.Expected ['='])
    | some e1 =>
      let start := take_whitespace e1
      match cvLoop (start.length + 1) [] start with
      | .error e => .error e
      | .ok (chans, input2) =>
        let lw := take_word (take_whitespace input2)
        match parseUInt usizeMax lw.1 with
        | none => .error .Conversion
        | some lastc =>
          let cw := take_word (take_whitespace lw.2)
          match parseFloat cw.1 with
          | none => .error .Conversion
          | some cutoff => .ok (.ChannelCV (chans ++ [lastc]) cutoff, cw.2)
  else if cmd = "sequence_match".data then
    match expect (take_whitespace input) ['='] with
    | none => .error (.Expected ['='])
    | some e1 =>
      let sw := take_word (take_whitespace e1)
      .ok (.SequenceMatch sw.1, sw.2)
  else if cmd = "sequence_exclude".data then
    match expect (take_whitespace input) ['='] with
    | none => .error (.Expected ['='])
    | some e1 =>
      let sw := take_word (take_whitespace e1)
      .ok (.SequenceExclude sw.1, sw.2)
  else if cmd = "tryptic".data then .ok (.Tryptic, input)
  else if cmd = "unique".data then .ok (.Unique, input)
  else .error (.Command cmd)

/-- The inner loop of `parse` for a `protein` block: accumulate protein
rules until the next block keyword or the end of the input.  Fuel as in
`cvLoop`: every continuing iteration consumes at least the command word. -/
def protein_block : Nat → Filter → List Char → Except ErrorKind (Filter × List Char)
  | 0, f, sr => .ok (f, sr)
  | fuel + 1, f, sr =>
    let sr := take_whitespace sr
    if startsWithList "peptide".data sr || sr.isEmpty then .ok (f, sr)
    else
      match parse_protein_filter sr with
      | .error e => .error e
      | .ok (filt, rest) => protein_block fuel (f.add_protein_filter filt) rest

/-- The inner loop of `parse` for a `peptide` block. -/
def peptide_block : Nat → Filter → List Char → Except ErrorKind (Filter × List Char)
  | 0, f, sr => .ok (f, sr)
  | fuel + 1, f, sr =>
    let sr := take_whitespace sr
    if startsWithList "protein".data sr || sr.isEmpty then .ok (f, sr)
    else
      match parse_peptide_filter sr with
      | .error e => .error e
      | .ok (filt, rest) => peptide_block fuel (f.add_peptide_filter filt) rest

/-- The outer loop of `parse` in `filter/parse.rs`: while the input starts
with the literal prefix `protein` or `peptide` (a prefix test, not a token
test), discard the introducing word and run the corresponding block loop;
otherwise stop and return the accumulated filter. -/
def parseRules : Nat → Filter → List Char → Except ErrorKind Filter
  | 0, f, _ => .ok f
  | fuel + 1, f, input =>
    if startsWithList "protein".data input then
      let sr := (take_word input).2
      match protein_block (sr.length + 1) f sr with
      | .error e => .error e
      | .ok (f2, input2) => parseRules fuel f2 input2
    else if startsWithList "peptide".data input then
      let sr := (take_word input).2
      match peptide_block (sr.length + 1) f sr with
      | .error e => .error e
      | .ok (f2, input2) => parseRules fuel f2 input2
    else .ok f

/-- `parse` of `filter/parse.rs` on a whole rule text. -/
def parse (input : String) : Except ErrorKind Filter :=
  parseRules (input.data.length + 1) Filter.default input.data

end Census.Rules

namespace Census

/-- Total number of peptides across the proteins of a dataset. -/
def totalPeptides (d : Dataset) : Nat := (d.proteins.map fun p => p.peptides.length).sum

/-- A line starting with the record tag `H`. -/
def isHeaderLine (l : List Char) : Bool := startsWithChar l 'H'

/-!
Concrete instances used by the witnesses and counterexamples below.
-/

/-- A protein with no peptide rows (counts stored as parsed). -/
def cexProteinNoPeptides : Protein := ⟨['A'], ['d'], 3, 2, qofNat 1, 10, [], 2⟩

/-- A dataset holding only `cexProteinNoPeptides`. -/
def cexDatasetNoPeptides : Dataset := ⟨[cexProteinNoPeptides], 2⟩

/-- A small peptide with two channel values. -/
def witPeptideA : Peptide := ⟨"K.AAA.R".data, [10, 20], true⟩

/-- A protein whose stored counts agree with its peptide list. -/
def witProteinOk : Protein := ⟨['A'], ['d'], 1, 1, qofNat 1, 10, [witPeptideA], 2⟩

/-- A dataset of consistent proteins. -/
def witDatasetOk : Dataset := ⟨[witProteinOk], 2⟩

/-- A unique peptide. -/
def witPeptideU : Peptide := ⟨"K.BBB.R".data, [1, 2, 3], true⟩

/-- A non-unique peptide. -/
def witPeptideN : Peptide := ⟨"K.CCC.R".data, [4, 5, 6], false⟩

/-- A filter keeping unique peptides and requiring one spectral count. -/
def witFilterC4 : Filter :=
  (Filter.default.add_peptide_filter .Unique).add_protein_filter (.SpectralCounts 1)

/-- A protein with one unique and one non-unique peptide. -/
def witProteinC4a : Protein := ⟨['A'], ['d'], 2, 2, qofNat 1, 5, [witPeptideU, witPeptideN], 3⟩

/-- A protein with only a non-unique peptide. -/
def witProteinC4b : Protein := ⟨['B'], ['e'], 1, 1, qofNat 1, 5, [witPeptideN], 3⟩

/-- A two-protein dataset for the idempotence witness. -/
def witDatasetC4 : Dataset := ⟨[witProteinC4a, witProteinC4b], 3⟩

/-- The surviving form of `witProteinC4a` under `witFilterC4`. -/
def witProteinC4aOut : Protein :=
  { witProteinC4a with peptides := [witPeptideU], spectral_count := 1, sequence_count := 1 }

/-- The filtered form of `witDatasetC4` under `witFilterC4`. -/
def witDatasetC4Out : Dataset := ⟨[witProteinC4aOut], 3⟩

/-- A minimal peptide used to build very large proteins. -/
def cexPepA : Peptide := ⟨['A'], [], false⟩

/-- A peptide whose sequence contains `Z`. -/
def cexPepZ : Peptide := ⟨['Z'], [], false⟩

/-- A protein with exactly `2 ^ 16` peptide rows: the `as u16` casts in the
count recomputation wrap on it. -/
def cexBigProtein : Protein := ⟨['A'], ['d'], 1, 1, qofNat 0, 0, List.replicate 65536 cexPepA, 0⟩

/-- The dataset holding `cexBigProtein`. -/
def cexBigDataset : Dataset := ⟨[cexBigProtein], 0⟩

/-- What the empty filter turns `cexBigProtein` into: the `u16` casts wrap
the recomputed spectral count of its `2 ^ 16` peptides to zero. -/
def cexBigProteinOut : Protein := { cexBigProtein with spectral_count := 0, sequence_count := 1 }

/-- A protein with `2 ^ 16` peptide rows of which exactly one contains `Z`. -/
def cexC7Protein : Protein :=
  ⟨['A'], ['d'], 1, 1, qofNat 0, 0, List.replicate 65535 cexPepA ++ [cexPepZ], 0⟩

/-- The dataset holding `cexC7Protein`. -/
def cexC7Dataset : Dataset := ⟨[cexC7Protein], 0⟩

/-- What `cexC7F2` turns `cexC7Protein` into: the `Z` peptide is dropped, so
the recomputed count no longer wraps. -/
def cexC7ProteinOut : Protein :=
  { cexC7Protein with
    peptides := List.replicate 65535 cexPepA
    spectral_count := 65535
    sequence_count := 1 }

/-- Require at least one (recomputed, truncated) spectral count. -/
def cexC7F : Filter := Filter.default.add_protein_filter (.SpectralCounts 1)

/-- `cexC7F` with one more peptide predicate. -/
def cexC7F2 : Filter := cexC7F.add_peptide_filter (.SequenceExclude ['Z'])

/-- A one-channel peptide for the channel-index witness. -/
def witPeptideC9 : Peptide := ⟨['A'], [5], true⟩

/-- A well-formed two-channel census file. -/
def witCensusInput : String :=
  "H\tm/z_126 m/z_n126 m/z_127 m/z_n127\nP\tQ123\t10\t2\t50.5%\t10000\tsome description\nS\tU\tK.AAA.R\t100\t1\t200\t2\nS\t\tK.BBB.R\t300\t3\t400\t4"

/-- The header line of `witCensusInput`. -/
def witHeaderLine : List Char := "H\tm/z_126 m/z_n126 m/z_127 m/z_n127".data

/-- The data lines of `witCensusInput`. -/
def witBodyLines : List (List Char) :=
  ["P\tQ123\t10\t2\t50.5%\t10000\tsome description".data,
    "S\tU\tK.AAA.R\t100\t1\t200\t2".data,
    "S\t\tK.BBB.R\t300\t3\t400\t4".data]

/-- The dataset `witCensusInput` parses to. -/
def witParsedDataset : Dataset :=
  ⟨[⟨"Q123".data, "some description".data, 10, 2, qmk 101 2 (by decide), 10000,
      [⟨"K.AAA.R".data, [100, 200], true⟩, ⟨"K.BBB.R".data, [300, 400], false⟩], 2⟩], 2⟩

/-- A census file whose second header block shrinks the channel count after
a protein was already parsed with the larger one. -/
def cexLateHeaderInput : String :=
  "H\tm/z_1 m/z_2 m/z_3 m/z_4\nP\tA\t1\t1\t50\t100\td\nS\tU\tPEP\t1\t2\t3\t4\nH\tm/z_1 m/z_2\nP\tB\t1\t1\t50\t100\td\nS\tU\tQEP\t5\t6"

/-- A census file whose offending `X` line is the second line of the input. -/
def cexLineNumberInput : String := "P\tA\t1\t1\t50\t100\td\nX"

/-- A header line carrying 512 `m/z_` markers: 512 / 2 = 256 overflows the
`u8` channel field, which the `as u8` cast truncates to 0. -/
def cexC6Header : List Char :=
  'H' :: '\t' :: (List.replicate 512 "m/z_".data).flatten

/-- The protein record line following `cexC6Header`. -/
def cexC6PLine : List Char := "P\tA\t1\t1\t50\t100\td".data

/-- A census file made of `cexC6Header` followed by one protein record. -/
def cexC6Input : String :=
  ⟨cexC6Header ++ '\n' :: cexC6PLine⟩

/-- The rule text of the spec's rule-text scenario. -/
def ruleTextC8 : String :=
  "protein:\n  spectral_counts = 10\n  sequence_counts = 2\npeptide:\n  tryptic\n  unique"

/-- The same rule text with the two blocks swapped. -/
def ruleTextC8Blocks : String :=
  "peptide:\n  tryptic\n  unique\nprotein:\n  spectral_counts = 10\n  sequence_counts = 2"

/-- The same rule text with the two protein predicates swapped inside their
block. -/
def ruleTextC8Inner : String :=
  "protein:\n  sequence_counts = 2\n  spectral_counts = 10\npeptide:\n  tryptic\n  unique"

/-- The filter built by the builder chain of the rule-text scenario. -/
def chainedFilterC8 : Rules.Filter :=
  ((((Rules.Filter.default).add_protein_filter (.SpectralCounts 10)).add_protein_filter
      (.SequenceCounts 2)).add_peptide_filter .Tryptic).add_peptide_filter .Unique

/-!
General lemmas about the filter engine, shared by the claims below.
-/

theorem peptidePasses_nil (p : Peptide) : peptidePasses [] p = some true := rfl

theorem collectPassing_of_all (fs : List PeptideFilter) :
    ∀ l : List Peptide, (∀ p ∈ l, peptidePasses fs p = some true) →
      collectPassing fs l = some l := by
  intro l
  induction l with
  | nil => intro _; rfl
  | cons p rest ih =>
    intro h
    have hp := h p (by simp)
    have hr := ih fun q hq => h q (by simp [hq])
    simp [collectPassing, hp, hr]

theorem collectPassing_mem (fs : List PeptideFilter) :
    ∀ l out, collectPassing fs l = some out → ∀ p ∈ out, peptidePasses fs p = some true := by
  intro l
  induction l with
  | nil =>
    intro out h p hp
    simp [collectPassing] at h
    subst h
    simp at hp
  | cons q rest ih =>
    intro out h p hp
    cases hq : peptidePasses fs q with
    | none => simp [collectPassing, hq] at h
    | some b =>
      cases b with
      | true =>
        simp only [collectPassing, hq, Option.map_eq_some'] at h
        obtain ⟨out0, h0, rfl⟩ := h
        rcases (by simpa using hp : p = q ∨ p ∈ out0) with rfl | hp0
        · exact hq
        · exact ih out0 h0 p hp0
      | false =>
        have h0 : collectPassing fs rest = some out := by simpa [collectPassing, hq] using h
        exact ih out h0 p hp

theorem collectPassing_sublist (fs : List PeptideFilter) :
    ∀ l out, collectPassing fs l = some out → out.Sublist l := by
  intro l
  induction l with
  | nil =>
    intro out h
    simp [collectPassing] at h
    subst h
    exact List.Sublist.refl _
  | cons q rest ih =>
    intro out h
    cases hq : peptidePasses fs q with
    | none => simp [collectPassing, hq] at h
    | some b =>
      cases b with
      | true =>
        simp only [collectPassing, hq, Option.map_eq_some'] at h
        obtain ⟨out0, h0, rfl⟩ := h
        exact List.cons_sublist_cons.mpr (ih out0 h0)
      | false =>
        have h0 : collectPassing fs rest = some out := by simpa [collectPassing, hq] using h
        exact (ih out h0).cons q

theorem prePass_update (fs : List ProteinFilter) (p : Protein) (l : List Peptide) (a b : Nat)
    (h1 : prePass fs p = true) (h2 : postPass fs a b = true) :
    prePass fs { p with peptides := l, spectral_count := a, sequence_count := b } = true := by
  simp only [prePass, List.all_eq_true] at h1 ⊢
  simp only [postPass, List.all_eq_true] at h2
  intro f hf
  have e1 := h1 f hf
  have e2 := h2 f hf
  cases f <;> simp_all

theorem filter_protein_mk (F : Filter) (p : Protein) (filtered : List Peptide)
    (hpre : prePass F.protein_filters p = true)
    (hc : collectPassing F.peptide_filters p.peptides = some filtered)
    (hne : filtered.isEmpty = false)
    (hpost : postPass F.protein_filters (filtered.length % 65536)
      (distinctCount (filtered.map Peptide.sequence) % 65536) = true) :
    F.filter_protein p = some (some
      { p with peptides := filtered,
               spectral_count := filtered.length % 65536,
               sequence_count := distinctCount (filtered.map Peptide.sequence) % 65536 }) := by
  simp [Filter.filter_protein, hpre, hc, hne, hpost]

theorem filter_protein_inv (F : Filter) (p q : Protein)
    (h : F.filter_protein p = some (some q)) :
    prePass F.protein_filters p = true ∧
    ∃ filtered, collectPassing F.peptide_filters p.peptides = some filtered ∧
      filtered.isEmpty = false ∧
      postPass F.protein_filters (filtered.length % 65536)
        (distinctCount (filtered.map Peptide.sequence) % 65536) = true ∧
      q = { p with peptides := filtered,
                   spectral_count := filtered.length % 65536,
                   sequence_count := distinctCount (filtered.map Peptide.sequence) % 65536 } := by
  by_cases hpre : prePass F.protein_filters p = true
  · refine ⟨hpre, ?_⟩
    cases hc : collectPassing F.peptide_filters p.peptides with
    | none => simp [Filter.filter_protein, hpre, hc] at h
    | some filtered =>
      by_cases hne : filtered.isEmpty = true
      · simp [Filter.filter_protein, hpre, hc, hne] at h
      · have hne2 : filtered.isEmpty = false := by simpa using hne
        by_cases hpost : postPass F.protein_filters (filtered.length % 65536)
            (distinctCount (filtered.map Peptide.sequence) % 65536) = true
        · refine ⟨filtered, rfl, hne2, hpost, ?_⟩
          have hmk := filter_protein_mk F p filtered hpre hc hne2 hpost
          have := hmk.symm.trans h
          simpa using this.symm
        · have hpost2 : postPass F.protein_filters (filtered.length % 65536)
              (distinctCount (filtered.map Peptide.sequence) % 65536) = false := by
            simpa using hpost
          simp [Filter.filter_protein, hpre, hc, hne2, hpost2] at h
  · have hpre2 : prePass F.protein_filters p = false := by simpa using hpre
    simp [Filter.filter_protein, hpre2] at h

theorem filter_protein_fixpoint (F : Filter) (p q : Protein)
    (h : F.filter_protein p = some (some q)) : F.filter_protein q = some (some q) := by
  obtain ⟨hpre, filtered, hc, hne, hpost, rfl⟩ := filter_protein_inv F p q h
  have hall := collectPassing_mem F.peptide_filters p.peptides filtered hc
  have hc2 : collectPassing F.peptide_filters filtered = some filtered :=
    collectPassing_of_all _ _ hall
  have hpre2 := prePass_update F.protein_filters p filtered _ _ hpre hpost
  have hmk := filter_protein_mk F
    { p with peptides := filtered,
             spectral_count := filtered.length % 65536,
             sequence_count := distinctCount (filtered.map Peptide.sequence) % 65536 }
    filtered hpre2 hc2 hne hpost
  exact hmk

theorem filterMapProteins_id (F : Filter) :
    ∀ l, (∀ p ∈ l, F.filter_protein p = some (some p)) → filterMapProteins F l = some l := by
  intro l
  induction l with
  | nil => intro _; rfl
  | cons p rest ih =>
    intro h
    simp [filterMapProteins, h p (by simp), ih fun q hq => h q (by simp [hq])]

theorem filterMapProteins_outputs (F : Filter) :
    ∀ l out, filterMapProteins F l = some out →
      ∀ q ∈ out, ∃ p ∈ l, F.filter_protein p = some (some q) := by
  intro l
  induction l with
  | nil =>
    intro out h q hq
    simp [filterMapProteins] at h
    subst h
    simp at hq
  | cons p rest ih =>
    intro out h q hq
    cases hp : F.filter_protein p with
    | none => simp [filterMapProteins, hp] at h
    | some r =>
      cases r with
      | none =>
        have h0 : filterMapProteins F rest = some out := by
          simpa [filterMapProteins, hp] using h
        obtain ⟨p0, hp0, he⟩ := ih out h0 q hq
        exact ⟨p0, by simp [hp0], he⟩
      | some q0 =>
        simp only [filterMapProteins, hp, Option.map_eq_some'] at h
        obtain ⟨out0, h0, rfl⟩ := h
        rcases (by simpa using hq : q = q0 ∨ q ∈ out0) with rfl | hq0
        · exact ⟨p, by simp, hp⟩
        · obtain ⟨p0, hp0, he⟩ := ih out0 h0 q hq0
          exact ⟨p0, by simp [hp0], he⟩

theorem filterMapProteins_singleton (F : Filter) (p q : Protein)
    (h : F.filter_protein p = some (some q)) : filterMapProteins F [p] = some [q] := by
  simp [filterMapProteins, h]

/-- C4: re-applying the same filter to an already-filtered dataset returns
that dataset unchanged — the same proteins, peptides, and recomputed counts.
(The hypothesis states that the first run is defined, i.e. did not hit one
of the panics modelled by the outer `Option`.) -/
theorem c4_filter_idempotent (F : Filter) (D D2 : Dataset)
    (h : F.filter_dataset D = some D2) : F.filter_dataset D2 = some D2 := by
  unfold Filter.filter_dataset at h ⊢
  rw [Option.map_eq_some'] at h
  obtain ⟨ps, hps, rfl⟩ := h
  have hid : ∀ q ∈ ps, F.filter_protein q = some (some q) := by
    intro q hq
    obtain ⟨p, _, hp⟩ := filterMapProteins_outputs F D.proteins ps hps q hq
    exact filter_protein_fixpoint F p q hp
  simp [filterMapProteins_id F ps hid]

/-- Witness for C4 at a concrete dataset and filter. -/
theorem c4_witness :
    witFilterC4.filter_dataset witDatasetC4 = some witDatasetC4Out ∧
    witFilterC4.filter_dataset witDatasetC4Out = some witDatasetC4Out :=
  ⟨by decide, c4_filter_idempotent witFilterC4 witDatasetC4 witDatasetC4Out (by decide)⟩

theorem gatherChannels_zero (values : List Nat) :
    ∀ chans, 0 ∈ chans → gatherChannels values chans = none := by
  intro chans
  induction chans with
  | nil => intro h; simp at h
  | cons c cs ih =>
    intro h
    cases c with
    | zero => rfl
    | succ ch =>
      have h0 : 0 ∈ cs := by simpa using h
      simp [gatherChannels, ih h0]

theorem sumChannels_zero (values : List Nat) :
    ∀ chans acc, 0 ∈ chans → sumChannels values chans acc = none := by
  intro chans
  induction chans with
  | nil => intro acc h; simp at h
  | cons c cs ih =>
    intro acc h
    cases c with
    | zero => rfl
    | succ ch =>
      have h0 : 0 ∈ cs := by simpa using h
      simp only [sumChannels]
      by_cases hr : ch < values.length
      · simp only [if_pos hr]
        cases checkedAddU32 acc (values.getD ch 0) with
        | none => rfl
        | some a => exact ih a h0
      · simp only [if_neg hr]
        exact ih acc h0

/-- C9: every peptide filter carrying 1-based channel indices evaluates
`chan - 1` with no zero check, so channel index `0` is the unsigned
underflow panic (`none`) instead of being skipped, while the lenient
out-of-range policy applies only to indices beyond the value count (for
`ChannelIntensity` such an index passes automatically). -/
theorem c9_channel_index_zero :
    (∀ (p : Peptide) (n : Nat), evalPeptideFilter (.ChannelIntensity 0 n) p = none) ∧
    (∀ (p : Peptide) (q : ℚ) (chans : List Nat), 0 ∈ chans →
      evalPeptideFilter (.ChannelCV chans q) p = none) ∧
    (∀ (p : Peptide) (n : Nat) (chans : List Nat), 0 ∈ chans →
      evalPeptideFilter (.TotalIntensityChannels chans n) p = none) ∧
    (∀ (p : Peptide) (n c : Nat), p.values.length < c →
      evalPeptideFilter (.ChannelIntensity c n) p = some true) := by
  refine ⟨fun p n => rfl, ?_, ?_, ?_⟩
  · intro p q chans h
    simp [evalPeptideFilter, gatherChannels_zero p.values chans h]
  · intro p n chans h
    simp [evalPeptideFilter, sumChannels_zero p.values chans 0 h]
  · intro p n c hc
    cases c with
    | zero => exact absurd hc (by simp)
    | succ ch =>
      have : ¬ ch < p.values.length := by omega
      simp [evalPeptideFilter, this]

theorem dedup_replicate_ne {α : Type} [DecidableEq α] (a : α) :
    ∀ n, n ≠ 0 → (List.replicate n a).dedup = [a] := by
  intro n
  induction n with
  | zero => intro h; exact absurd rfl h
  | succ m ih =>
    intro _
    rw [List.replicate_succ]
    cases m with
    | zero => simp
    | succ k =>
      rw [List.dedup_cons_of_mem (by simp [List.mem_replicate])]
      exact ih (by omega)

/-- C1 (amended): the empty filter returns the dataset unchanged provided
every protein has at least one peptide and stores the counts the engine
would recompute (the peptide-row count and the distinct-sequence count,
truncated by the `as u16` casts).  A protein with no peptides is dropped
even by the empty filter, and stored counts are always overwritten with the
recomputed values, so the hypothesis is exactly what the code forces. -/
theorem c1_empty_filter_identity (D : Dataset)
    (h : ∀ p ∈ D.proteins, p.peptides ≠ [] ∧
      p.spectral_count = p.peptides.length % 65536 ∧
      p.sequence_count = distinctCount (p.peptides.map Peptide.sequence) % 65536) :
    Filter.default.filter_dataset D = some D := by
  unfold Filter.filter_dataset
  have hid : ∀ p ∈ D.proteins, Filter.default.filter_protein p = some (some p) := by
    intro p hp
    obtain ⟨hne, hsc, hqc⟩ := h p hp
    have hc : collectPassing Filter.default.peptide_filters p.peptides = some p.peptides :=
      collectPassing_of_all _ _ fun q _ => rfl
    have hne2 : p.peptides.isEmpty = false := by
      cases hpl : p.peptides with
      | nil => exact absurd hpl hne
      | cons a l => rfl
    have hmk := filter_protein_mk Filter.default p p.peptides rfl hc hne2 rfl
    rw [hmk]
    rcases p with ⟨acc, desc, sc, qc, cov, mw, peps, ch⟩
    simp only at hsc hqc
    simp [hsc, hqc]
  rw [filterMapProteins_id _ _ hid]
  rfl

/-- Witness for C1 at a concrete consistent dataset. -/
theorem c1_witness : Filter.default.filter_dataset witDatasetOk = some witDatasetOk :=
  c1_empty_filter_identity witDatasetOk (by decide)

/-- Counterexample to C1 as stated: the empty filter does not return every
dataset unchanged — a protein with no peptide rows is dropped outright. -/
theorem c1_counterexample :
    Filter.default.filter_dataset cexDatasetNoPeptides ≠ some cexDatasetNoPeptides ∧
    Filter.default.filter_dataset cexDatasetNoPeptides = some ⟨[], 2⟩ := by
  constructor
  · decide
  · decide

/-- C5 (amended): a surviving protein carries exactly the recomputed counts
— the surviving peptide-row count and the distinct-sequence count, each
truncated by the `as u16` cast (`% 65536`, the identity whenever the count
is below `65536`) — and every `SpectralCounts`/`SequenceCounts` threshold in
the filter is satisfied by these recomputed values (so a protein whose
recomputed count drops below a threshold is rejected at the second pass). -/
theorem c5_recomputed_counts (F : Filter) (p q : Protein)
    (h : F.filter_protein p = some (some q)) :
    q.spectral_count = q.peptides.length % 65536 ∧
    q.sequence_count = distinctCount (q.peptides.map Peptide.sequence) % 65536 ∧
    (∀ n, ProteinFilter.SpectralCounts n ∈ F.protein_filters → n ≤ q.spectral_count) ∧
    (∀ n, ProteinFilter.SequenceCounts n ∈ F.protein_filters → n ≤ q.sequence_count) ∧
    (q.peptides.length < 65536 → q.spectral_count = q.peptides.length) ∧
    (distinctCount (q.peptides.map Peptide.sequence) < 65536 →
      q.sequence_count = distinctCount (q.peptides.map Peptide.sequence)) := by
  obtain ⟨hpre, filtered, hc, hne, hpost, rfl⟩ := filter_protein_inv F p q h
  refine ⟨rfl, rfl, ?_, ?_, ?_, ?_⟩
  · intro n hn
    have := List.all_eq_true.mp hpost _ hn
    simpa using this
  · intro n hn
    have := List.all_eq_true.mp hpost _ hn
    simpa using this
  · intro hlt
    exact Nat.mod_eq_of_lt hlt
  · intro hlt
    exact Nat.mod_eq_of_lt hlt

/-- Witness for C5 at a concrete filter application. -/
theorem c5_witness :
    witFilterC4.filter_protein witProteinC4a = some (some witProteinC4aOut) ∧
    witProteinC4aOut.spectral_count = witProteinC4aOut.peptides.length % 65536 ∧
    (∀ n, ProteinFilter.SpectralCounts n ∈ witFilterC4.protein_filters →
      n ≤ witProteinC4aOut.spectral_count) :=
  ⟨by decide,
    (c5_recomputed_counts witFilterC4 witProteinC4a witProteinC4aOut (by decide)).1,
    (c5_recomputed_counts witFilterC4 witProteinC4a witProteinC4aOut (by decide)).2.2.1⟩

/-- Counterexample to C5 as stated: on a protein with `2 ^ 16` peptide rows
the `as u16` cast wraps, so the surviving protein's `spectral_count` is `0`,
not its peptide count. -/
theorem distinctCount_replicate (a : List Char) (n : Nat) (h : n ≠ 0) :
    distinctCount (List.replicate n a) = 1 := by
  unfold distinctCount
  rw [dedup_replicate_ne _ _ h]
  rfl

theorem c5_counterexample :
    Filter.default.filter_dataset cexBigDataset = some ⟨[cexBigProteinOut], 0⟩ ∧
    cexBigProteinOut.spectral_count ≠ cexBigProteinOut.peptides.length := by
  have hne2 : (List.replicate 65536 cexPepA).isEmpty = false := by
    rw [show List.replicate 65536 cexPepA = cexPepA :: List.replicate 65535 cexPepA from rfl]
    rfl
  have hc : collectPassing Filter.default.peptide_filters cexBigProtein.peptides =
      some (List.replicate 65536 cexPepA) :=
    collectPassing_of_all _ _ fun q _ => rfl
  have hmk := filter_protein_mk Filter.default cexBigProtein (List.replicate 65536 cexPepA)
    rfl hc hne2 rfl
  have hspec : (List.replicate 65536 cexPepA).length % 65536 = 0 := by
    rw [List.length_replicate]
  have hseq : distinctCount ((List.replicate 65536 cexPepA).map Peptide.sequence) % 65536 = 1 := by
    rw [show (List.replicate 65536 cexPepA).map Peptide.sequence
        = List.replicate 65536 cexPepA.sequence from List.map_replicate,
      distinctCount_replicate _ _ (by omega)]
  rw [hspec, hseq] at hmk
  have hmk2 : Filter.default.filter_protein cexBigProtein = some (some cexBigProteinOut) := hmk
  constructor
  · unfold Filter.filter_dataset
    rw [show cexBigDataset.proteins = [cexBigProtein] from rfl,
      filterMapProteins_singleton _ _ _ hmk2]
    rfl
  · have h2 : cexBigProteinOut.peptides.length = 65536 := by
      show (List.replicate 65536 cexPepA).length = 65536
      rw [List.length_replicate]
    rw [show cexBigProteinOut.spectral_count = 0 from rfl, h2]
    omega

/-- Witness for C9 at a concrete peptide and concrete channel lists. -/
theorem c9_witness :
    evalPeptideFilter (.ChannelIntensity 0 500) witPeptideC9 = none ∧
    evalPeptideFilter (.ChannelCV [0] (qofNat 1)) witPeptideC9 = none ∧
    evalPeptideFilter (.TotalIntensityChannels [0] 5) witPeptideC9 = none ∧
    evalPeptideFilter (.ChannelIntensity 2 500) witPeptideC9 = some true :=
  ⟨c9_channel_index_zero.1 _ _,
    c9_channel_index_zero.2.1 _ _ _ (by decide),
    c9_channel_index_zero.2.2.1 _ _ _ (by decide),
    c9_channel_index_zero.2.2.2 _ _ _ (by decide)⟩

theorem peptidePasses_cons_none (fs : List PeptideFilter) (f : PeptideFilter) (p : Peptide)
    (h : evalPeptideFilter f p = none) : peptidePasses (f :: fs) p = none := by
  simp [peptidePasses, h]

theorem peptidePasses_cons_some (fs : List PeptideFilter) (f : PeptideFilter) (p : Peptide)
    (b : Bool) (h : evalPeptideFilter f p = some b) :
    peptidePasses (f :: fs) p = (peptidePasses fs p).map fun c => b && c := by
  simp [peptidePasses, h]

theorem collectPassing_cons_none (fs : List PeptideFilter) (p : Peptide) (rest : List Peptide)
    (h : peptidePasses fs p = none) : collectPassing fs (p :: rest) = none := by
  simp [collectPassing, h]

theorem collectPassing_cons_true (fs : List PeptideFilter) (p : Peptide) (rest : List Peptide)
    (h : peptidePasses fs p = some true) :
    collectPassing fs (p :: rest) = (collectPassing fs rest).map fun l => p :: l := by
  simp [collectPassing, h]

theorem collectPassing_cons_false (fs : List PeptideFilter) (p : Peptide) (rest : List Peptide)
    (h : peptidePasses fs p = some false) :
    collectPassing fs (p :: rest) = collectPassing fs rest := by
  simp [collectPassing, h]

theorem peptidePasses_append (fs : List PeptideFilter) (f : PeptideFilter) (p : Peptide) :
    ∀ b2, peptidePasses (fs ++ [f]) p = some b2 →
      ∃ b c, peptidePasses fs p = some b ∧ evalPeptideFilter f p = some c ∧ b2 = (b && c) := by
  induction fs with
  | nil =>
    intro b2 h
    cases he : evalPeptideFilter f p with
    | none => rw [List.nil_append, peptidePasses_cons_none _ _ _ he] at h; exact absurd h (by simp)
    | some c =>
      refine ⟨true, c, rfl, rfl, ?_⟩
      rw [List.nil_append, peptidePasses_cons_some _ _ _ _ he] at h
      rw [show peptidePasses [] p = some true from rfl] at h
      simp at h
      simp [h]
  | cons g fs ih =>
    intro b2 h
    cases hg : evalPeptideFilter g p with
    | none => rw [List.cons_append, peptidePasses_cons_none _ _ _ hg] at h; exact absurd h (by simp)
    | some b0 =>
      rw [List.cons_append, peptidePasses_cons_some _ _ _ _ hg, Option.map_eq_some'] at h
      obtain ⟨b1, h1, rfl⟩ := h
      obtain ⟨b, c, hb, hc, rfl⟩ := ih b1 h1
      refine ⟨b0 && b, c, ?_, hc, ?_⟩
      · rw [peptidePasses_cons_some _ _ _ _ hg, hb]
        rfl
      · simp [Bool.and_assoc]

theorem collectPassing_append_sub (fs : List PeptideFilter) (f : PeptideFilter) :
    ∀ (l : List Peptide) out2, collectPassing (fs ++ [f]) l = some out2 →
      ∃ out, collectPassing fs l = some out ∧ out2.Sublist out := by
  intro l
  induction l with
  | nil =>
    intro out2 h
    simp [collectPassing] at h
    subst h
    exact ⟨[], rfl, List.Sublist.refl _⟩
  | cons p rest ih =>
    intro out2 h
    cases hp2 : peptidePasses (fs ++ [f]) p with
    | none => rw [collectPassing_cons_none _ _ _ hp2] at h; exact absurd h (by simp)
    | some b2 =>
      obtain ⟨b, c, hb, hc, rfl⟩ := peptidePasses_append fs f p b2 hp2
      cases b with
      | false =>
        simp only [Bool.false_and] at hp2
        rw [collectPassing_cons_false _ _ _ hp2] at h
        obtain ⟨out, hout, hsub⟩ := ih out2 h
        refine ⟨out, ?_, hsub⟩
        rw [collectPassing_cons_false _ _ _ hb]
        exact hout
      | true =>
        simp only [Bool.true_and] at hp2
        cases c with
        | false =>
          rw [collectPassing_cons_false _ _ _ hp2] at h
          obtain ⟨out, hout, hsub⟩ := ih out2 h
          refine ⟨p :: out, ?_, hsub.cons p⟩
          rw [collectPassing_cons_true _ _ _ hb, hout]
          rfl
        | true =>
          rw [collectPassing_cons_true _ _ _ hp2, Option.map_eq_some'] at h
          obtain ⟨o2, h2, rfl⟩ := h
          obtain ⟨out, hout, hsub⟩ := ih o2 h2
          refine ⟨p :: out, ?_, List.cons_sublist_cons.mpr hsub⟩
          rw [collectPassing_cons_true _ _ _ hb, hout]
          rfl

theorem dedup_length_mono {α : Type} [DecidableEq α] (l1 l2 : List α) (h : l1.Sublist l2) :
    l1.dedup.length ≤ l2.dedup.length := by
  rw [← List.card_toFinset, ← List.card_toFinset]
  refine Finset.card_le_card fun a ha => ?_
  rw [List.mem_toFinset] at ha ⊢
  exact h.subset ha

theorem prePass_append (fs gs : List ProteinFilter) (p : Protein) :
    prePass (fs ++ gs) p = (prePass fs p && prePass gs p) := by
  simp [prePass, List.all_append]

theorem postPass_append (fs gs : List ProteinFilter) (a b : Nat) :
    postPass (fs ++ gs) a b = (postPass fs a b && postPass gs a b) := by
  simp [postPass, List.all_append]

theorem filter_protein_add_protein (F : Filter) (g : ProteinFilter) (p q : Protein)
    (h2 : (F.add_protein_filter g).filter_protein p = some (some q)) :
    F.filter_protein p = some (some q) := by
  obtain ⟨hpre, filtered, hc, hne, hpost, rfl⟩ := filter_protein_inv _ p q h2
  have hpre2 : prePass (F.protein_filters ++ [g]) p = true := hpre
  have hpost2 : postPass (F.protein_filters ++ [g]) (filtered.length % 65536)
      (distinctCount (filtered.map Peptide.sequence) % 65536) = true := hpost
  rw [prePass_append, Bool.and_eq_true] at hpre2
  rw [postPass_append, Bool.and_eq_true] at hpost2
  exact filter_protein_mk F p filtered hpre2.1 hc hne hpost2.1

theorem filter_protein_add_peptide (F : Filter) (f : PeptideFilter) (p : Protein)
    (r1 : Option Protein) (q2 : Protein)
    (hlen : p.peptides.length < 65536)
    (h1 : F.filter_protein p = some r1)
    (h2 : (F.add_peptide_filter f).filter_protein p = some (some q2)) :
    ∃ q1, r1 = some q1 ∧ q2.peptides.length ≤ q1.peptides.length := by
  obtain ⟨hpre, S2, hc2, hne2, hpost2, rfl⟩ := filter_protein_inv _ p _ h2
  have hpre1 : prePass F.protein_filters p = true := hpre
  have hc2' : collectPassing (F.peptide_filters ++ [f]) p.peptides = some S2 := hc2
  obtain ⟨S1, hc1, hsub⟩ := collectPassing_append_sub F.peptide_filters f p.peptides S2 hc2'
  have hS2ne : S2 ≠ [] := by
    intro hnil
    rw [hnil] at hne2
    simp at hne2
  have hne1 : S1.isEmpty = false := by
    cases hS1 : S1 with
    | nil =>
      rw [hS1] at hsub
      exact absurd (List.sublist_nil.mp hsub) hS2ne
    | cons a l => rfl
  have hlen1 : S1.length < 65536 :=
    Nat.lt_of_le_of_lt (collectPassing_sublist _ _ _ hc1).length_le hlen
  have hlen2 : S2.length < 65536 := Nat.lt_of_le_of_lt hsub.length_le hlen1
  have hd1lt : distinctCount (S1.map Peptide.sequence) < 65536 := by
    have hd := (List.dedup_sublist (S1.map Peptide.sequence)).length_le
    have hml : (S1.map Peptide.sequence).length = S1.length := List.length_map _ _
    unfold distinctCount
    omega
  have hd2lt : distinctCount (S2.map Peptide.sequence) < 65536 := by
    have hd := (List.dedup_sublist (S2.map Peptide.sequence)).length_le
    have hml : (S2.map Peptide.sequence).length = S2.length := List.length_map _ _
    unfold distinctCount
    omega
  have hdmono : distinctCount (S2.map Peptide.sequence) ≤
      distinctCount (S1.map Peptide.sequence) :=
    dedup_length_mono _ _ (hsub.map Peptide.sequence)
  have hpost2' : postPass F.protein_filters (S2.length % 65536)
      (distinctCount (S2.map Peptide.sequence) % 65536) = true := hpost2
  have hpost1 : postPass F.protein_filters (S1.length % 65536)
      (distinctCount (S1.map Peptide.sequence) % 65536) = true := by
    rw [Nat.mod_eq_of_lt hlen1, Nat.mod_eq_of_lt hd1lt]
    rw [Nat.mod_eq_of_lt hlen2, Nat.mod_eq_of_lt hd2lt] at hpost2'
    simp only [postPass, List.all_eq_true] at hpost2' ⊢
    intro f0 hf0
    have := hpost2' f0 hf0
    have hsl := hsub.length_le
    cases f0 with
    | SpectralCounts n => simp at this ⊢; omega
    | SequenceCounts n => simp at this ⊢; omega
    | ExcludeReverse => simp
  have hmk := filter_protein_mk F p S1 hpre1 hc1 hne1 hpost1
  have hr : r1 = some
      { p with peptides := S1,
               spectral_count := S1.length % 65536,
               sequence_count := distinctCount (S1.map Peptide.sequence) % 65536 } := by
    have := h1.symm.trans hmk
    exact Option.some.inj this
  refine ⟨_, hr, ?_⟩
  simpa using hsub.length_le

theorem filterMapProteins_mono (F1 F2 : Filter) :
    ∀ (l : List Protein) out1 out2,
      (∀ p r1 q2, p ∈ l → F1.filter_protein p = some r1 →
        F2.filter_protein p = some (some q2) →
        ∃ q1, r1 = some q1 ∧ q2.peptides.length ≤ q1.peptides.length) →
      filterMapProteins F1 l = some out1 → filterMapProteins F2 l = some out2 →
      out2.length ≤ out1.length ∧
        (out2.map fun p => p.peptides.length).sum ≤ (out1.map fun p => p.peptides.length).sum := by
  intro l
  induction l with
  | nil =>
    intro out1 out2 _ h1 h2
    simp [filterMapProteins] at h1 h2
    subst h1
    subst h2
    simp
  | cons p rest ih =>
    intro out1 out2 hrel h1 h2
    have hrel' : ∀ p0 r1 q2, p0 ∈ rest → F1.filter_protein p0 = some r1 →
        F2.filter_protein p0 = some (some q2) →
        ∃ q1, r1 = some q1 ∧ q2.peptides.length ≤ q1.peptides.length :=
      fun p0 r1 q2 hp0 => hrel p0 r1 q2 (List.mem_cons_of_mem _ hp0)
    cases hp1 : F1.filter_protein p with
    | none => simp [filterMapProteins, hp1] at h1
    | some r1 =>
      cases hp2 : F2.filter_protein p with
      | none => simp [filterMapProteins, hp2] at h2
      | some r2 =>
        cases r2 with
        | none =>
          have h2' : filterMapProteins F2 rest = some out2 := by
            simpa [filterMapProteins, hp2] using h2
          cases r1 with
          | none =>
            have h1' : filterMapProteins F1 rest = some out1 := by
              simpa [filterMapProteins, hp1] using h1
            exact ih out1 out2 hrel' h1' h2'
          | some q1 =>
            simp only [filterMapProteins, hp1, Option.map_eq_some'] at h1
            obtain ⟨rest1, h1', rfl⟩ := h1
            have hih := ih rest1 out2 hrel' h1' h2'
            refine ⟨hih.1.trans (by simp), hih.2.trans ?_⟩
            simp
        | some q2 =>
          obtain ⟨q1, hq1, hlen⟩ := hrel p r1 q2 (by simp) hp1 hp2
          subst hq1
          simp only [filterMapProteins, hp1, Option.map_eq_some'] at h1
          obtain ⟨rest1, h1', rfl⟩ := h1
          simp only [filterMapProteins, hp2, Option.map_eq_some'] at h2
          obtain ⟨rest2, h2', rfl⟩ := h2
          have hih := ih rest1 rest2 hrel' h1' h2'
          constructor
          · simpa using Nat.succ_le_succ hih.1
          · have := hih.2
            simp only [List.map_cons, List.sum_cons]
            omega

theorem collectPassing_append_eq (fs : List PeptideFilter) :
    ∀ l1 l2 o1 o2, collectPassing fs l1 = some o1 → collectPassing fs l2 = some o2 →
      collectPassing fs (l1 ++ l2) = some (o1 ++ o2) := by
  intro l1
  induction l1 with
  | nil =>
    intro l2 o1 o2 h1 h2
    simp [collectPassing] at h1
    subst h1
    simpa using h2
  | cons p rest ih =>
    intro l2 o1 o2 h1 h2
    cases hp : peptidePasses fs p with
    | none => rw [collectPassing_cons_none _ _ _ hp] at h1; exact absurd h1 (by simp)
    | some b =>
      cases b with
      | true =>
        rw [collectPassing_cons_true _ _ _ hp, Option.map_eq_some'] at h1
        obtain ⟨o1', h1', rfl⟩ := h1
        rw [List.cons_append, collectPassing_cons_true _ _ _ hp, ih l2 o1' o2 h1' h2]
        rfl
      | false =>
        rw [collectPassing_cons_false _ _ _ hp] at h1
        rw [List.cons_append, collectPassing_cons_false _ _ _ hp]
        exact ih l2 o1 o2 h1 h2

theorem filter_protein_post_reject (F : Filter) (p : Protein) (filtered : List Peptide)
    (hpre : prePass F.protein_filters p = true)
    (hc : collectPassing F.peptide_filters p.peptides = some filtered)
    (hne : filtered.isEmpty = false)
    (hpost : postPass F.protein_filters (filtered.length % 65536)
      (distinctCount (filtered.map Peptide.sequence) % 65536) = false) :
    F.filter_protein p = some none := by
  simp [Filter.filter_protein, hpre, hc, hne, hpost]

theorem filterMapProteins_singleton_none (F : Filter) (p : Protein)
    (h : F.filter_protein p = some none) : filterMapProteins F [p] = some [] := by
  simp [filterMapProteins, h]

/-- C7 (amended): on datasets whose proteins each have fewer than `2 ^ 16`
peptide rows (so the `as u16` count casts do not wrap), pushing one more
protein or peptide predicate onto a filter never increases the number of
surviving proteins nor the total number of surviving peptides.  (Without
that bound the claim is false: see the counterexample.) -/
theorem c7_monotonicity (F : Filter) (D D1 : Dataset)
    (hlen : ∀ p ∈ D.proteins, p.peptides.length < 65536)
    (h1 : F.filter_dataset D = some D1) :
    (∀ (g : ProteinFilter) (D2 : Dataset),
      (F.add_protein_filter g).filter_dataset D = some D2 →
      D2.proteins.length ≤ D1.proteins.length ∧ totalPeptides D2 ≤ totalPeptides D1) ∧
    (∀ (f : PeptideFilter) (D2 : Dataset),
      (F.add_peptide_filter f).filter_dataset D = some D2 →
      D2.proteins.length ≤ D1.proteins.length ∧ totalPeptides D2 ≤ totalPeptides D1) := by
  unfold Filter.filter_dataset at h1
  rw [Option.map_eq_some'] at h1
  obtain ⟨ps1, hps1, rfl⟩ := h1
  constructor
  · intro g D2 h2
    unfold Filter.filter_dataset at h2
    rw [Option.map_eq_some'] at h2
    obtain ⟨ps2, hps2, rfl⟩ := h2
    have hrel : ∀ p r1 q2, p ∈ D.proteins → F.filter_protein p = some r1 →
        (F.add_protein_filter g).filter_protein p = some (some q2) →
        ∃ q1, r1 = some q1 ∧ q2.peptides.length ≤ q1.peptides.length := by
      intro p r1 q2 _ hr1 hq2
      have hsame := filter_protein_add_protein F g p q2 hq2
      exact ⟨q2, Option.some.inj (hr1.symm.trans hsame), le_refl _⟩
    exact filterMapProteins_mono F (F.add_protein_filter g) D.proteins ps1 ps2 hrel hps1 hps2
  · intro f D2 h2
    unfold Filter.filter_dataset at h2
    rw [Option.map_eq_some'] at h2
    obtain ⟨ps2, hps2, rfl⟩ := h2
    have hrel : ∀ p r1 q2, p ∈ D.proteins → F.filter_protein p = some r1 →
        (F.add_peptide_filter f).filter_protein p = some (some q2) →
        ∃ q1, r1 = some q1 ∧ q2.peptides.length ≤ q1.peptides.length := by
      intro p r1 q2 hp hr1 hq2
      exact filter_protein_add_peptide F f p r1 q2 (hlen p hp) hr1 hq2
    exact filterMapProteins_mono F (F.add_peptide_filter f) D.proteins ps1 ps2 hrel hps1 hps2

/-- Witness for C7 at a concrete filter extension. -/
theorem c7_witness :
    (⟨[], 3⟩ : Dataset).proteins.length ≤ witDatasetC4Out.proteins.length ∧
    totalPeptides ⟨[], 3⟩ ≤ totalPeptides witDatasetC4Out :=
  (c7_monotonicity witFilterC4 witDatasetC4 witDatasetC4Out (by decide) (by decide)).2
    .Tryptic ⟨[], 3⟩ (by decide)

/-- Counterexample to C7 as stated: because of the `u16` wrap, adding the
peptide predicate `SequenceExclude "Z"` to a filter requiring one spectral
count lets a protein with `2 ^ 16` peptides survive (recomputed count
`65535`) where the original filter rejected it (recomputed count wraps to
`0`), so the surviving protein and peptide counts both increase. -/
theorem c7_counterexample :
    cexC7F.filter_dataset cexC7Dataset = some ⟨[], 0⟩ ∧
    cexC7F2.filter_dataset cexC7Dataset = some ⟨[cexC7ProteinOut], 0⟩ ∧
    ¬ ((⟨[cexC7ProteinOut], 0⟩ : Dataset).proteins.length ≤
        ((⟨[], 0⟩ : Dataset)).proteins.length) := by
  have hsp : (List.replicate 65535 cexPepA ++ [cexPepZ]).length % 65536 = 0 := by
    rw [List.length_append, List.length_replicate]
    rfl
  refine ⟨?_, ?_, by simp⟩
  · have hc : collectPassing cexC7F.peptide_filters cexC7Protein.peptides =
        some (List.replicate 65535 cexPepA ++ [cexPepZ]) :=
      collectPassing_of_all _ _ fun q _ => rfl
    have hne : (List.replicate 65535 cexPepA ++ [cexPepZ]).isEmpty = false := by
      rw [show List.replicate 65535 cexPepA ++ [cexPepZ]
          = cexPepA :: (List.replicate 65534 cexPepA ++ [cexPepZ]) from rfl]
      rfl
    have hpost : postPass cexC7F.protein_filters
        ((List.replicate 65535 cexPepA ++ [cexPepZ]).length % 65536)
        (distinctCount ((List.replicate 65535 cexPepA ++ [cexPepZ]).map Peptide.sequence)
          % 65536) = false := by
      rw [hsp]
      rfl
    have hrej := filter_protein_post_reject cexC7F cexC7Protein _ rfl hc hne hpost
    unfold Filter.filter_dataset
    rw [show cexC7Dataset.proteins = [cexC7Protein] from rfl,
      filterMapProteins_singleton_none _ _ hrej]
    rfl
  · have hc1 : collectPassing cexC7F2.peptide_filters (List.replicate 65535 cexPepA) =
        some (List.replicate 65535 cexPepA) := by
      refine collectPassing_of_all _ _ fun q hq => ?_
      rw [(List.mem_replicate.mp hq).2]
      rfl
    have hc2 : collectPassing cexC7F2.peptide_filters [cexPepZ] = some [] := rfl
    have hc : collectPassing cexC7F2.peptide_filters cexC7Protein.peptides =
        some (List.replicate 65535 cexPepA) := by
      rw [show cexC7Protein.peptides = List.replicate 65535 cexPepA ++ [cexPepZ] from rfl]
      have := collectPassing_append_eq cexC7F2.peptide_filters
        (List.replicate 65535 cexPepA) [cexPepZ] (List.replicate 65535 cexPepA) [] hc1 hc2
      rw [List.append_nil] at this
      exact this
    have hne : (List.replicate 65535 cexPepA).isEmpty = false := by
      rw [show List.replicate 65535 cexPepA = cexPepA :: List.replicate 65534 cexPepA from rfl]
      rfl
    have hmk := filter_protein_mk cexC7F2 cexC7Protein (List.replicate 65535 cexPepA)
      rfl hc hne ?hpost
    case hpost =>
      rw [show (List.replicate 65535 cexPepA).length % 65536 = 65535 from by
          rw [List.length_replicate]]
      rfl
    rw [show (List.replicate 65535 cexPepA).length % 65536 = 65535 from by
        rw [List.length_replicate],
      show distinctCount ((List.replicate 65535 cexPepA).map Peptide.sequence) % 65536 = 1 from by
        rw [show (List.replicate 65535 cexPepA).map Peptide.sequence
            = List.replicate 65535 cexPepA.sequence from List.map_replicate,
          distinctCount_replicate _ _ (by omega)]] at hmk
    have hmk2 : cexC7F2.filter_protein cexC7Protein = some (some cexC7ProteinOut) := hmk
    unfold Filter.filter_dataset
    rw [show cexC7Dataset.proteins = [cexC7Protein] from rfl,
      filterMapProteins_singleton _ _ _ hmk2]
    rfl

theorem startsWithChar_iff (l : List Char) (c : Char) :
    startsWithChar l c = true ↔ l.head? = some c := by
  simp [startsWithChar]

theorem splitTab_ne_nil (l : List Char) : splitTab l ≠ [] := by
  rw [splitTab.eq_def]
  split
  · simp
  · simp
  · split <;> simp

theorem splitTab_first_head (l : List Char) (c : Char) (f : List Char) (fs : List (List Char))
    (h : splitTab l = (c :: f) :: fs) : l.head? = some c := by
  rw [splitTab.eq_def] at h
  split at h
  · simp at h
  · simp at h
  next c0 rest =>
    split at h <;> simp_all

theorem readChannels_length : ∀ (k ln : Nat) (fields : List (List Char)) (vs : List Nat),
    readChannels k ln fields = .ok vs → vs.length = k := by
  intro k
  induction k with
  | zero =>
    intro ln fields vs h
    simp [readChannels] at h
    subst h
    rfl
  | succ k2 ih =>
    intro ln fields vs h
    unfold readChannels at h
    split at h
    · simp at h
    next mz fs =>
      split at h
      · simp at h
      next v hv =>
        split at h
        · simp at h
        next fs2 =>
          cases hr : readChannels k2 ln fs2 with
          | error e => rw [hr] at h; simp [Except.map] at h
          | ok vs0 =>
            rw [hr] at h
            simp [Except.map] at h
            subst h
            simp [ih ln fs2 vs0 hr]

theorem parse_peptide_channels (ch ln : Nat) (l : List Char) (pep : Peptide)
    (h : parse_peptide ch ln l = some (.ok pep)) : pep.values.length = ch := by
  unfold parse_peptide at h
  split at h
  · simp at h
  next f0 fields =>
    split at h
    · split at h
      · simp at h
      next n fields2 =>
        split at h
        · split at h
          · simp at h
          next seq fields3 =>
            split at h
            · simp at h
            next vs hr =>
              simp only [Option.some.injEq, Except.ok.injEq] at h
              subst h
              exact readChannels_length ch ln fields3 vs hr
        · simp at h
    · simp at h

theorem parse_peptides_spec (ch ln : Nat) :
    ∀ (lines : List (List Char)) (peps : List Peptide) (rem : List (List Char)),
      parse_peptides ch ln lines = some (.ok (peps, rem)) →
      (∀ pep ∈ peps, pep.values.length = ch) ∧
      ∃ consumed, lines = consumed ++ rem ∧ ∀ l ∈ consumed, startsWithChar l 'S' = true := by
  intro lines
  induction lines with
  | nil =>
    intro peps rem h
    simp [parse_peptides] at h
    obtain ⟨h1, h2⟩ := h
    subst h1
    subst h2
    exact ⟨by simp, [], rfl, by simp⟩
  | cons l rest ih =>
    intro peps rem h
    unfold parse_peptides at h
    split at h
    next hS =>
      split at h
      · simp at h
      next e => simp at h
      next pep hpep =>
        split at h
        · simp at h
        next e => simp at h
        next peps0 rem0 hrec =>
          simp only [Option.some.injEq, Except.ok.injEq, Prod.mk.injEq] at h
          obtain ⟨h1, h2⟩ := h
          obtain ⟨hlen, consumed, hsplit, hcons⟩ := ih peps0 rem0 hrec
          subst h1
          subst h2
          refine ⟨?_, l :: consumed, by simp [hsplit], ?_⟩
          · intro pep0 hp0
            rcases List.mem_cons.mp hp0 with rfl | hmem
            · exact parse_peptide_channels ch ln l pep0 hpep
            · exact hlen pep0 hmem
          · intro l0 hl0
            rcases List.mem_cons.mp hl0 with rfl | hmem
            · exact hS
            · exact hcons l0 hmem
    next hS =>
      simp only [Option.some.injEq, Except.ok.injEq, Prod.mk.injEq] at h
      obtain ⟨h1, h2⟩ := h
      subst h1
      subst h2
      exact ⟨by simp, [], rfl, by simp⟩

theorem parse_protein_spec (ch ln : Nat) (lines : List (List Char)) (prot : Protein)
    (rem : List (List Char)) (h : parse_protein ch ln lines = some (.ok (prot, rem))) :
    prot.channels = ch ∧ (∀ pep ∈ prot.peptides, pep.values.length = ch) ∧
    ∃ consumed, lines = consumed ++ rem ∧
      consumed ≠ [] ∧ ∀ l ∈ consumed, startsWithChar l 'H' = false := by
  unfold parse_protein at h
  split at h
  · simp at h
  next l rest =>
    split at h
    · simp at h
    next f0 fields hsp =>
      split at h
      case isTrue hP =>
        split at h
        · simp at h
        next accession f2 =>
          split at h
          · simp at h
          next scs f3 =>
            split at h
            · simp at h
            next spectral hspec =>
              split at h
              · simp at h
              next sqs f4 =>
                split at h
                · simp at h
                next seqc hseqc =>
                  split at h
                  · simp at h
                  next covs f5 =>
                    split at h
                    · simp at h
                    next coverage hcov =>
                      split at h
                      · simp at h
                      next mws f6 =>
                        split at h
                        · simp at h
                        next mw hmw =>
                          split at h
                          · simp at h
                          next desc hdesc =>
                            split at h
                            · simp at h
                            · simp at h
                            next peps rem0 hpeps =>
                              simp only [Option.some.injEq, Except.ok.injEq,
                                Prod.mk.injEq] at h
                              obtain ⟨h1, h2⟩ := h
                              obtain ⟨hlen, consumed, hsplit, hcons⟩ :=
                                parse_peptides_spec ch ln rest peps rem0 hpeps
                              subst h1
                              subst h2
                              have hheadl : l.head? = some 'P' := by
                                subst hP
                                exact splitTab_first_head l 'P' [] _ hsp
                              refine ⟨rfl, by simpa using hlen, l :: consumed,
                                by simp [hsplit], by simp, ?_⟩
                              intro l0 hl0
                              rcases List.mem_cons.mp hl0 with rfl | hmem
                              · simp [startsWithChar, hheadl]
                              · have hS := hcons l0 hmem
                                rw [startsWithChar_iff] at hS
                                simp [startsWithChar, hS]
      case isFalse hP => simp at h

theorem parse_headers_spec :
    ∀ (lines : List (List Char)) (ch ln : Nat) (rem : List (List Char)) (ch2 ln2 : Nat),
      parse_headers lines ch ln = (rem, ch2, ln2) →
      ∃ hs, lines = hs ++ rem ∧ (∀ l ∈ hs, startsWithChar l 'H' = true) ∧
        ch2 = hs.foldl headerUpd ch ∧ ln2 = ln + hs.length ∧
        ∀ l0 ∈ rem.head?, startsWithChar l0 'H' = false := by
  intro lines
  induction lines with
  | nil =>
    intro ch ln rem ch2 ln2 h
    simp [parse_headers] at h
    obtain ⟨h1, h2, h3⟩ := h
    subst h1
    subst h2
    subst h3
    exact ⟨[], rfl, by simp, rfl, by simp, by simp⟩
  | cons l rest ih =>
    intro ch ln rem ch2 ln2 h
    unfold parse_headers at h
    split at h
    case isTrue hH =>
      obtain ⟨hs0, hsplit, hall, hch, hln, hrem⟩ := ih (headerUpd ch l) (ln + 1) rem ch2 ln2 h
      refine ⟨l :: hs0, by simp [hsplit], ?_, by simp [hch], by simp [hln]; omega, hrem⟩
      intro l0 hl0
      rcases List.mem_cons.mp hl0 with rfl | hmem
      · exact hH
      · exact hall l0 hmem
    case isFalse hH =>
      simp only [Prod.mk.injEq] at h
      obtain ⟨h1, h2, h3⟩ := h
      subst h1
      subst h2
      subst h3
      refine ⟨[], rfl, by simp, rfl, by simp, ?_⟩
      intro l0 hl0
      simp at hl0
      subst hl0
      simpa using hH

theorem parse_headers_of_prefix :
    ∀ (hs : List (List Char)) (rest : List (List Char)) (ch ln : Nat),
      (∀ l ∈ hs, startsWithChar l 'H' = true) →
      (∀ l0 ∈ rest.head?, startsWithChar l0 'H' = false) →
      parse_headers (hs ++ rest) ch ln = (rest, hs.foldl headerUpd ch, ln + hs.length) := by
  intro hs
  induction hs with
  | nil =>
    intro rest ch ln _ hrest
    cases rest with
    | nil => simp [parse_headers]
    | cons r rs =>
      have hr : startsWithChar r 'H' = false := hrest r (by simp)
      simp [parse_headers, hr]
  | cons l hs0 ih =>
    intro rest ch ln hall hrest
    have hl : startsWithChar l 'H' = true := hall l (by simp)
    rw [List.cons_append]
    unfold parse_headers
    rw [if_pos hl]
    rw [ih rest (headerUpd ch l) (ln + 1) (fun l0 h0 => hall l0 (by simp [h0])) hrest]
    simp
    omega

theorem parseLoop_peptide_channels :
    ∀ (fuel : Nat) (lines : List (List Char)) (ch ln : Nat) (ps : List Protein) (chf : Nat),
      parseLoop fuel lines ch ln = some (.ok (ps, chf)) →
      ∀ p ∈ ps, ∀ pep ∈ p.peptides, pep.values.length = p.channels := by
  intro fuel
  induction fuel with
  | zero => intro lines ch ln ps chf h; simp [parseLoop] at h
  | succ fuel2 ih =>
    intro lines ch ln ps chf h
    cases lines with
    | nil =>
      simp [parseLoop] at h
      obtain ⟨h1, _⟩ := h
      subst h1
      simp
    | cons l rest =>
      unfold parseLoop at h
      split at h
      · simp at h
      next init hinit =>
        split at h
        · -- header branch
          split at h
          next rem ch2 ln2 hph =>
            split at h
            · simp at h
            · exact ih _ _ _ _ _ h
        · split at h
          · -- 'P' branch
            split at h
            · simp at h
            · simp at h
            next prot rem hprot =>
              split at h
              · simp at h
              · simp at h
              next ps0 chf0 hrec =>
                simp only [Option.some.injEq, Except.ok.injEq, Prod.mk.injEq] at h
                obtain ⟨h1, h2⟩ := h
                subst h1
                subst h2
                intro p hp
                rcases List.mem_cons.mp hp with rfl | hmem
                · obtain ⟨hch, hpep, _⟩ := parse_protein_spec ch ln (l :: rest) p rem hprot
                  intro pep hpep2
                  rw [hch]
                  exact hpep pep hpep2
                · exact ih _ _ _ _ _ hrec p hmem
          · simp at h

theorem parseLoop_no_headers :
    ∀ (fuel : Nat) (lines : List (List Char)) (ch ln : Nat) (ps : List Protein) (chf : Nat),
      (∀ l ∈ lines, startsWithChar l 'H' = false) →
      parseLoop fuel lines ch ln = some (.ok (ps, chf)) →
      chf = ch ∧ ∀ p ∈ ps, p.channels = ch := by
  intro fuel
  induction fuel with
  | zero => intro lines ch ln ps chf _ h; simp [parseLoop] at h
  | succ fuel2 ih =>
    intro lines ch ln ps chf hnoH h
    cases lines with
    | nil =>
      simp [parseLoop] at h
      obtain ⟨h1, h2⟩ := h
      subst h1
      subst h2
      exact ⟨rfl, by simp⟩
    | cons l rest =>
      unfold parseLoop at h
      split at h
      · simp at h
      next init hinit =>
        split at h
        case isTrue hH =>
          exfalso
          have hfalse := hnoH l (by simp)
          rw [hH] at hinit
          simp [startsWithChar, hinit] at hfalse
        · split at h
          · split at h
            · simp at h
            · simp at h
            next prot rem hprot =>
              split at h
              · simp at h
              · simp at h
              next ps0 chf0 hrec =>
                simp only [Option.some.injEq, Except.ok.injEq, Prod.mk.injEq] at h
                obtain ⟨h1, h2⟩ := h
                subst h1
                subst h2
                obtain ⟨hch, _, consumed, hsplit, _, _⟩ :=
                  parse_protein_spec ch ln (l :: rest) prot rem hprot
                have hnoH2 : ∀ l0 ∈ rem, startsWithChar l0 'H' = false := by
                  intro l0 hl0
                  exact hnoH l0 (by rw [hsplit]; exact List.mem_append_right _ hl0)
                obtain ⟨hchf, hps0⟩ := ih _ _ _ _ _ hnoH2 hrec
                refine ⟨hchf, ?_⟩
                intro p hp
                rcases List.mem_cons.mp hp with rfl | hmem
                · exact hch
                · exact hps0 p hmem
          · simp at h

theorem parseLoop_invalid (fuel ch ln : Nat) (x : List Char) (rest : List (List Char)) (c : Char)
    (hx : x.head? = some c) (hcH : c ≠ 'H') (hcP : c ≠ 'P') :
    parseLoop (fuel + 1) (x :: rest) ch ln = some (.error ⟨.Invalid c, ln⟩) := by
  simp only [parseLoop, hx]
  rw [if_neg hcH, if_neg hcP]

theorem parseLoop_header_step (fuel : Nat) (h0 : List Char) (hs0 rest : List (List Char))
    (ch ln : Nat)
    (hall : ∀ l ∈ h0 :: hs0, startsWithChar l 'H' = true)
    (hrest : ∀ l0 ∈ rest.head?, startsWithChar l0 'H' = false)
    (hne : rest ≠ []) :
    parseLoop (fuel + 1) ((h0 :: hs0) ++ rest) ch ln =
      parseLoop fuel rest ((h0 :: hs0).foldl headerUpd ch) (ln + (h0 :: hs0).length) := by
  cases rest with
  | nil => exact absurd rfl hne
  | cons r rs =>
    have hh0 : h0.head? = some 'H' := (startsWithChar_iff h0 'H').mp (hall h0 (by simp))
    have hph := parse_headers_of_prefix (h0 :: hs0) (r :: rs) ch ln hall hrest
    rw [List.cons_append] at hph
    rw [List.cons_append]
    simp only [parseLoop, hh0, if_true]
    rw [hph]

theorem parseLoop_all_headers (fuel : Nat) (h0 : List Char) (hs0 : List (List Char)) (ch ln : Nat)
    (hall : ∀ l ∈ h0 :: hs0, startsWithChar l 'H' = true) :
    parseLoop (fuel + 1) (h0 :: hs0) ch ln =
      some (.error ⟨.EOF, ln + (h0 :: hs0).length⟩) := by
  have hh0 : h0.head? = some 'H' := (startsWithChar_iff h0 'H').mp (hall h0 (by simp))
  have hph := parse_headers_of_prefix (h0 :: hs0) [] ch ln hall (by simp)
  rw [List.append_nil] at hph
  simp only [parseLoop, hh0, if_true]
  rw [hph]

theorem parseLoop_channels_fold :
    ∀ (fuel : Nat) (lines : List (List Char)) (ch ln : Nat) (ps : List Protein) (chf : Nat),
      parseLoop fuel lines ch ln = some (.ok (ps, chf)) →
      chf = (lines.filter isHeaderLine).foldl headerUpd ch := by
  intro fuel
  induction fuel with
  | zero => intro lines ch ln ps chf h; simp [parseLoop] at h
  | succ fuel2 ih =>
    intro lines ch ln ps chf h
    cases lines with
    | nil =>
      simp [parseLoop] at h
      obtain ⟨_, h2⟩ := h
      subst h2
      simp
    | cons l rest =>
      unfold parseLoop at h
      split at h
      · simp at h
      next init hinit =>
        split at h
        · split at h
          next =>
            rename_i rem ch2 ln2 hph
            split at h
            · simp at h
            · obtain ⟨hs, hsplit, hall, hch2, _, _⟩ :=
                parse_headers_spec (l :: rest) ch ln _ _ _ hph
              have hrec := ih _ _ _ _ _ h
              rw [hsplit, List.filter_append]
              have hfhs : hs.filter isHeaderLine = hs :=
                List.filter_eq_self.mpr fun a ha => hall a ha
              rw [hfhs, List.foldl_append, ← hch2]
              exact hrec
        · split at h
          · split at h
            · simp at h
            · simp at h
            next prot rem hprot =>
              split at h
              · simp at h
              · simp at h
              next ps0 chf0 hrec =>
                simp only [Option.some.injEq, Except.ok.injEq, Prod.mk.injEq] at h
                obtain ⟨_, h2⟩ := h
                subst h2
                obtain ⟨_, _, consumed, hsplit, _, hnoH⟩ :=
                  parse_protein_spec ch ln (l :: rest) prot rem hprot
                have := ih _ _ _ _ _ hrec
                rw [hsplit, List.filter_append]
                have hfc : consumed.filter isHeaderLine = [] := by
                  rw [List.filter_eq_nil_iff]
                  intro a ha
                  simp [isHeaderLine, hnoH a ha]
                rw [hfc, List.nil_append]
                exact this
          · simp at h

/-- C2 (amended): in every accepted parse, each peptide has exactly as many
values as its owning protein's channel field (unconditionally); and whenever
every header line precedes every data line — the spec's own format shape —
each protein's channel field and each peptide's value count equal the
dataset's channel count.  The unconditional dataset-level claim is false for
accepted inputs with late header lines (see the counterexample), because a
later `m/z` header overwrites the channel count after earlier proteins were
parsed with the old one. -/
theorem c2_channel_invariant :
    (∀ (input : String) (d : Dataset), parse input = some (.ok d) →
      ∀ p ∈ d.proteins, ∀ pep ∈ p.peptides, pep.values.length = p.channels) ∧
    (∀ (input : String) (hs rest : List (List Char)) (d : Dataset),
      rustLines input.data = hs ++ rest →
      (∀ l ∈ hs, startsWithChar l 'H' = true) →
      (∀ l ∈ rest, startsWithChar l 'H' = false) →
      parse input = some (.ok d) →
      ∀ p ∈ d.proteins, p.channels = d.channels ∧
        ∀ pep ∈ p.peptides, pep.values.length = d.channels) := by
  constructor
  · intro input d h
    simp only [parse] at h
    split at h
    · simp at h
    · simp at h
    next ps chf hloop =>
      simp only [Option.some.injEq, Except.ok.injEq] at h
      subst h
      exact parseLoop_peptide_channels _ _ _ _ _ _ hloop
  · intro input hs rest d hsplit hhs hrest h
    simp only [parse] at h
    split at h
    · simp at h
    · simp at h
    next ps chf hloop =>
      simp only [Option.some.injEq, Except.ok.injEq] at h
      subst h
      rw [hsplit] at hloop
      have hpep := parseLoop_peptide_channels _ _ _ _ _ _ hloop
      cases hs with
      | nil =>
        rw [List.nil_append] at hloop
        obtain ⟨hchf, hchan⟩ := parseLoop_no_headers _ _ _ _ _ _ hrest hloop
        intro p hp
        have hc := hchan p hp
        refine ⟨?_, ?_⟩
        · show p.channels = chf
          rw [hc, hchf]
        · intro pep hpepm
          show pep.values.length = chf
          rw [hpep p hp pep hpepm, hc, hchf]
      | cons h0 hs0 =>
        cases rest with
        | nil =>
          rw [List.append_nil] at hloop
          rw [parseLoop_all_headers _ h0 hs0 0 1 hhs] at hloop
          simp at hloop
        | cons r rs =>
          have hrest0 : ∀ l0 ∈ (r :: rs).head?, startsWithChar l0 'H' = false := by
            intro l0 hl0
            simp at hl0
            subst hl0
            exact hrest r (by simp)
          rw [parseLoop_header_step _ h0 hs0 (r :: rs) 0 1 hhs hrest0 (by simp)] at hloop
          obtain ⟨hchf, hchan⟩ := parseLoop_no_headers _ _ _ _ _ _ hrest hloop
          intro p hp
          have hc := hchan p hp
          refine ⟨?_, ?_⟩
          · show p.channels = chf
            rw [hc, hchf]
          · intro pep hpepm
            show pep.values.length = chf
            rw [hpep p hp pep hpepm, hc, hchf]

/-- Witness for C2 at a concrete headers-first census file. -/
theorem c2_witness :
    ∀ p ∈ witParsedDataset.proteins, p.channels = witParsedDataset.channels ∧
      ∀ pep ∈ p.peptides, pep.values.length = witParsedDataset.channels :=
  c2_channel_invariant.2 witCensusInput [witHeaderLine] witBodyLines witParsedDataset
    (by decide) (by decide) (by decide) (by decide)

/-- Counterexample to C2 as stated: an accepted input whose second header
block shrinks the channel count leaves the first protein's peptides with
more values than the dataset's channel count. -/
theorem c2_counterexample :
    (parse cexLateHeaderInput).map (Except.map fun d =>
      (d.channels, d.proteins.map fun p => p.peptides.map fun pep => pep.values.length)) =
      some (.ok (1, [[2], [1]])) ∧ (2 : Nat) ≠ 1 := by
  refine ⟨by decide, by decide⟩

/-- C3 (amended): when the offending line is preceded only by header lines,
`parse` rejects the whole input with `Invalid c` at the correct 1-based line
number (one more than the number of preceding lines) and returns no dataset.
When protein or peptide lines precede the offending line the reported number
is wrong — the parser's line counter is advanced only while consuming header
lines — which is what limits the original claim (see the counterexample). -/
theorem c3_invalid_leading_char (input : String) (hs : List (List Char)) (x : List Char)
    (rest : List (List Char)) (c : Char)
    (hsplit : rustLines input.data = hs ++ x :: rest)
    (hhs : ∀ l ∈ hs, startsWithChar l 'H' = true)
    (hx : x.head? = some c) (hcH : c ≠ 'H') (hcP : c ≠ 'P') :
    parse input = some (.error ⟨.Invalid c, 1 + hs.length⟩) := by
  simp only [parse]
  rw [hsplit]
  cases hs with
  | nil =>
    rw [List.nil_append]
    rw [parseLoop_invalid _ _ _ _ _ _ hx hcH hcP]
    simp
  | cons h0 hs0 =>
    have hxH : startsWithChar x 'H' = false := by
      simp [startsWithChar, hx]
      exact hcH
    have hrest0 : ∀ l0 ∈ (x :: rest).head?, startsWithChar l0 'H' = false := by
      intro l0 hl0
      simp at hl0
      subst hl0
      exact hxH
    rw [parseLoop_header_step _ h0 hs0 (x :: rest) 0 1 hhs hrest0 (by simp)]
    rw [show ((h0 :: hs0) ++ x :: rest).length = ((h0 :: hs0).length + rest.length) + 1 by
      simp only [List.length_append, List.length_cons]
      omega]
    rw [parseLoop_invalid _ _ _ _ _ _ hx hcH hcP]

/-- Witness for C3 at a concrete input with one header line. -/
theorem c3_witness : parse "H\tfoo\nX" = some (.error ⟨.Invalid 'X', 2⟩) := by
  have h := c3_invalid_leading_char "H\tfoo\nX" ["H\tfoo".data] ['X'] [] 'X'
    (by decide) (by decide) (by decide) (by decide) (by decide)
  simpa using h

/-- Counterexample to C3 as stated: in an input whose offending `X` line is
its second line (after a protein record), the error carries line number 1,
not 2 — the parser never advances its line counter on protein lines. -/
theorem c3_counterexample :
    parse cexLineNumberInput = some (.error ⟨.Invalid 'X', 1⟩) ∧
    parse cexLineNumberInput ≠ some (.error ⟨.Invalid 'X', 2⟩) ∧
    (rustLines cexLineNumberInput.data)[1]? = some ['X'] := by
  refine ⟨by decide, by decide, by decide⟩

/-- C6 (amended): on every accepted parse, the dataset's channel count is
the left fold of the header-update over the input's header lines starting
from zero: each header line containing `"m/z"` overwrites the count with
its number of `"m/z_"` occurrences divided by two *taken mod 2^8* (the
`as u8` cast into the `channels: u8` field), later lines win, and with no
such header line the count stays zero.  The untruncated quotient of the
original claim is wrong once a header carries 512 or more markers (see the
counterexample).  The concrete conjuncts check the remaining readings of
the claim: a header with four `"m/z_"` markers yields channel count 2, and
a headerless input parses with channel count 0. -/
theorem c6_channel_count :
    (∀ (input : String) (d : Dataset), parse input = some (.ok d) →
      d.channels = ((rustLines input.data).filter isHeaderLine).foldl headerUpd 0) ∧
    countOcc "m/z_".data witHeaderLine / 2 = 2 ∧
    (parse witCensusInput).map (Except.map Dataset.channels) = some (.ok 2) ∧
    (parse "P\tA\t1\t1\t50\t100\td").map (Except.map Dataset.channels) = some (.ok 0) := by
  refine ⟨?_, by decide, by decide, by decide⟩
  intro input d h
  simp only [parse] at h
  split at h
  · simp at h
  · simp at h
  next ps chf hloop =>
    simp only [Option.some.injEq, Except.ok.injEq] at h
    subst h
    exact parseLoop_channels_fold _ _ _ _ _ _ hloop

/-- Witness for C6 at a concrete census file. -/
theorem c6_witness :
    witParsedDataset.channels =
      ((rustLines witCensusInput.data).filter isHeaderLine).foldl headerUpd 0 :=
  c6_channel_count.1 witCensusInput witParsedDataset (by decide)

theorem rustLines_cons_ne (c : Char) (xs : List Char) (hn : c ≠ '\n') (hr : c ≠ '\r') :
    rustLines (c :: xs) =
      match rustLines xs with
      | [] => [[c]]
      | l :: ls => (c :: l) :: ls := by
  rw [rustLines.eq_def]
  split
  · rename_i h; simp at h
  · rename_i rest h
    rw [List.cons.injEq] at h
    exact absurd h.1 hr
  · rename_i rest h
    rw [List.cons.injEq] at h
    exact absurd h.1 hn
  · rename_i c2 rest hno1 hno2 heq
    rw [List.cons.injEq] at heq
    obtain ⟨h1, h2⟩ := heq
    subst h1
    subst h2
    rfl

theorem rustLines_append_line (l rest : List Char)
    (h : ∀ c ∈ l, c ≠ '\n' ∧ c ≠ '\r') :
    rustLines (l ++ '\n' :: rest) = l :: rustLines rest := by
  induction l with
  | nil => rfl
  | cons c cs ih =>
    have hc := h c (by simp)
    rw [List.cons_append, rustLines_cons_ne c _ hc.1 hc.2,
      ih (fun x hx => h x (by simp [hx]))]

theorem cexC6Header_no_newline : ∀ c ∈ cexC6Header, c ≠ '\n' ∧ c ≠ '\r' := by
  intro c hc
  simp only [cexC6Header, List.mem_cons, List.mem_flatten, List.mem_replicate] at hc
  rcases hc with h | h | ⟨a, ⟨_, ha⟩, hca⟩
  · subst h; exact ⟨by decide, by decide⟩
  · subst h; exact ⟨by decide, by decide⟩
  · subst ha
    exact (by decide : ∀ x ∈ "m/z_".data, x ≠ '\n' ∧ x ≠ '\x0d') c hca

theorem cexC6_lines :
    rustLines cexC6Input.data = [cexC6Header, cexC6PLine] := by
  rw [show cexC6Input.data = cexC6Header ++ '\n' :: cexC6PLine from rfl]
  rw [rustLines_append_line _ _ cexC6Header_no_newline]
  rfl

theorem cexC6_contains : containsSub "m/z".data cexC6Header = true := by decide

set_option maxRecDepth 200000 in
theorem cexC6_count : countOcc "m/z_".data cexC6Header = 512 := by decide

theorem cexC6_upd : headerUpd 0 cexC6Header = 0 := by
  unfold headerUpd
  rw [if_pos cexC6_contains, cexC6_count]

/-- Counterexample to C6 as stated: a header line with 512 `m/z_` markers
makes the program store `(512 / 2) as u8 = 0` in its `u8` channel field, so
the accepted parse carries channel count 0 where the claim's untruncated
`occurrences / 2` reads 256. -/
theorem c6_counterexample :
    (parse cexC6Input).map (Except.map Dataset.channels) = some (.ok 0) ∧
    countOcc "m/z_".data cexC6Header / 2 = 256 := by
  constructor
  · have hlines : rustLines cexC6Input.data = [cexC6Header, cexC6PLine] := cexC6_lines
    have hstep := parseLoop_header_step 2 cexC6Header [] [cexC6PLine] 0 1
        (by intro l hl; simp at hl; subst hl; decide)
        (by intro l0 hl0; simp at hl0; subst hl0; decide)
        (by simp)
    simp only [List.singleton_append, List.foldl_cons, List.foldl_nil, List.length_cons,
      List.length_nil] at hstep
    rw [cexC6_upd] at hstep
    norm_num at hstep
    unfold parse
    simp only [hlines]
    rw [show ([cexC6Header, cexC6PLine] : List (List Char)).length + 1 = 2 + 1 from rfl]
    rw [hstep]
    decide
  · rw [cexC6_count]

set_option maxRecDepth 80000 in
/-- C8 (amended): the scenario rule text parses to exactly the filter built
by the given chain of `add_protein_filter`/`add_peptide_filter` calls, and
swapping the two whole blocks yields an equal Filter (the two predicate
vectors are accumulated independently); but reordering predicates within a
block permutes the stored predicate vector, and the derived equality on
`Filter` compares the vectors in order, so within-block reordering does not
give an equal Filter (see the counterexample). -/
theorem c8_rule_text :
    Rules.parse ruleTextC8 = .ok chainedFilterC8 ∧
    Rules.parse ruleTextC8Blocks = .ok chainedFilterC8 := by
  refine ⟨by decide, by decide⟩

set_option maxRecDepth 80000 in
/-- Counterexample to C8 as stated: swapping the two predicates inside the
`protein` block produces a Filter whose protein-predicate vector is in the
other order, which is not equal to the chained Filter. -/
theorem c8_counterexample :
    Rules.parse ruleTextC8Inner ≠ .ok chainedFilterC8 ∧
    Rules.parse ruleTextC8Inner = .ok (((((Rules.Filter.default).add_protein_filter
      (.SequenceCounts 2)).add_protein_filter (.SpectralCounts 10)).add_peptide_filter
      .Tryptic).add_peptide_filter .Unique) := by
  refine ⟨by decide, by decide⟩

/-- C10 (amended): whenever the remaining top-level input does not start
with the literal prefix `protein` or `peptide`, the outer loop of the rule
parser stops and returns the filter accumulated so far, silently ignoring
the rest; in particular any whole input without either literal prefix
parses to `Ok` with the empty Filter.  The claim's first-token phrasing is
wrong: the check is a prefix test, not a token test, so an input whose
first token merely extends the keyword (such as `proteinX x`) enters the
block and can yield an `UnknownCommand` error (see the counterexample). -/
theorem c10_top_level_stop :
    (∀ (fuel : Nat) (f : Rules.Filter) (input : List Char),
      startsWithList "protein".data input = false →
      startsWithList "peptide".data input = false →
      Rules.parseRules (fuel + 1) f input = .ok f) ∧
    (∀ (s : String), startsWithList "protein".data s.data = false →
      startsWithList "peptide".data s.data = false →
      Rules.parse s = .ok Rules.Filter.default) := by
  have hmain : ∀ (fuel : Nat) (f : Rules.Filter) (input : List Char),
      startsWithList "protein".data input = false →
      startsWithList "peptide".data input = false →
      Rules.parseRules (fuel + 1) f input = .ok f := by
    intro fuel f input h1 h2
    unfold Rules.parseRules
    simp [h1, h2]
  exact ⟨hmain, fun s h1 h2 => hmain s.data.length Rules.Filter.default s.data h1 h2⟩

/-- Witness for C10 at a concrete garbage input. -/
theorem c10_witness : Rules.parse "garbage anything at all" = .ok Rules.Filter.default :=
  c10_top_level_stop.2 "garbage anything at all" (by decide) (by decide)

/-- Counterexample to C10 as stated: the first token of `proteinX x` is
neither `protein` nor `peptide`, yet the parser enters the protein block
(prefix test) and fails with `UnknownCommand` instead of returning the
empty Filter. -/
theorem c10_counterexample :
    Rules.parse "proteinX x" = .error (.Command ['x']) ∧
    Rules.parse "proteinX x" ≠ .ok Rules.Filter.default := by
  refine ⟨by decide, by decide⟩

end Census
